import Mathlib

/-!
# Verification of the auto-friend gating and scheduling engine

Shallow embedding of the repository's gating logic: content safety
filters, rate and cooldown tracking, anti-repetition detection, the
cadence scheduler and the persistence contract, together with proofs of
the specification's testable properties.

Python text is modelled as Lean `String` (a list of Unicode code
points, matching Python's `str` semantics where `len` counts code
points).  Machine-independent integers are `Nat`/`Int`; SQLite rows are
records; timestamps are minute counts on a single clock.
-/

set_option autoImplicit false

namespace AutoFriend

/-! ### Python string primitives

`isWs` models Python's `str.strip()` / `str.split()` whitespace test for
the whitespace characters that occur in this code base (space, tab,
carriage return, newline) — the same set as `Char.isWhitespace`. -/

def isWs (c : Char) : Bool :=
  c = ' ' || c = '\t' || c = '\r' || c = '\n'

/-- Python `\w` (re module, Unicode mode) restricted to the scripts this
configuration uses: ASCII letters and digits, underscore, and the
Cyrillic block U+0400–U+04FF. -/
def isWordChar (c : Char) : Bool :=
  c.isAlphanum || c = '_' || (0x400 ≤ c.toNat && c.toNat ≤ 0x4FF)

/-- Python `str.lower` for the characters this code base handles:
ASCII `A`–`Z` and Cyrillic `А`–`Я` (U+0410–U+042F, mapped by +0x20)
plus `Ё` (U+0401 → U+0451). -/
def lowerChar (c : Char) : Char :=
  if c.toNat = 0x401 then Char.ofNat 0x451
  else if 0x410 ≤ c.toNat && c.toNat ≤ 0x42F then Char.ofNat (c.toNat + 0x20)
  else c.toLower

def pyLower (s : String) : String :=
  ⟨s.data.map lowerChar⟩

/-- Python `str.strip()` on the character list. -/
def stripChars (l : List Char) : List Char :=
  ((l.dropWhile isWs).reverse.dropWhile isWs).reverse

def pyStrip (s : String) : String :=
  ⟨stripChars s.data⟩

/-- Split a character list into the maximal runs of characters
satisfying `keep`; the accumulator carries the current run reversed.
With `keep = (!isWs ·)` this is Python's `str.split()`; with
`keep = isWordChar` it yields the `\w+` tokens that a `\b`-delimited
regular expression can match against. -/
def splitByAux (keep : Char → Bool) : List Char → List Char → List (List Char)
  | [], acc => if acc.isEmpty then [] else [acc.reverse]
  | c :: cs, acc =>
      if keep c then splitByAux keep cs (c :: acc)
      else if acc.isEmpty then splitByAux keep cs []
      else acc.reverse :: splitByAux keep cs []

def splitBy (keep : Char → Bool) (s : String) : List String :=
  (splitByAux keep s.data []).map (fun l => ⟨l⟩)

/-- Python `s.split()` (split on whitespace, no empty pieces). -/
def pyWords (s : String) : List String :=
  splitBy (fun c => !isWs c) s

/-- The `\w+` tokens of a string; a pattern `\bw\b` matches the string
iff `w` is one of these tokens, and `\bw\w*\b` matches iff some token
starts with `w`. -/
def wordTokens (s : String) : List String :=
  splitBy isWordChar s

/-- Does the list start with the given pattern? -/
def listStartsWith : List Char → List Char → Bool
  | _, [] => true
  | [], _ :: _ => false
  | c :: cs, d :: ds => c = d && listStartsWith cs ds

/-- Substring occurrence on character lists. -/
def containsSub (needle : List Char) : List Char → Bool
  | [] => needle.isEmpty
  | c :: cs => listStartsWith (c :: cs) needle || containsSub needle cs

/-- Python `needle in hay` (substring containment). -/
def pyContains (hay needle : String) : Bool :=
  containsSub needle.data hay.data

/-- Length of the maximal run of characters equal to `c` at the head of
the list. -/
def runLen (c : Char) : List Char → Nat
  | [] => 0
  | d :: ds => if d == c then runLen c ds + 1 else 0

/-- A run of at least `n+1` identical characters satisfying `p` occurs
somewhere in the list (the regex `(X)\1{n,}` with `X` restricted by
`p`). -/
def hasSameCharRun (p : Char → Bool) (n : Nat) : List Char → Bool
  | [] => false
  | c :: cs => (p c && n ≤ runLen c cs) || hasSameCharRun p n cs

/-- A run of at least `n` consecutive characters satisfying `p` occurs
in the list (the regex `[class]{n,}`); `cnt` counts the current run. -/
def hasPredRunAux (p : Char → Bool) (n : Nat) : Nat → List Char → Bool
  | cnt, [] => decide (n ≤ cnt)
  | cnt, c :: cs =>
      decide (n ≤ cnt) ||
        (if p c then hasPredRunAux p n (cnt + 1) cs else hasPredRunAux p n 0 cs)

def hasPredRun (p : Char → Bool) (n : Nat) (l : List Char) : Bool :=
  hasPredRunAux p n 0 l

/-! ### Content Safety Filter — `bot_tg/src/moderation/safety.py`

`ContentModerator` with the repository's default settings
(`forbidden_topics = "политика,nsfw,токсичность,спам,реклама"`,
`group_keywords = "совет,опыт,как сделать,помогите,вопрос"`,
`min_group_message_length = 20`). -/

namespace Moderation

/-- The compiled forbidden-topic patterns, in configuration order.
`true` marks a morphological stem pattern `\bstem\w*\b` (matches any
`\w+` token starting with the stem); `false` an exact word `\bword\b`. -/
def forbidden_topic_patterns : List (String × Bool) :=
  [("политик", true), ("nsfw", false), ("токсичн", true),
   ("спам", true), ("реклам", true)]

def matchesTopicPattern (toks : List String) (p : String × Bool) : Bool :=
  toks.any (fun t => if p.2 then listStartsWith t.data p.1.data else t == p.1)

/-- The regex `\b18\+\b` scanned over a character list: an occurrence of
`18+` whose `1` sits at a word boundary and whose `+` is followed by a
word character (a `+` is a non-word character, so the trailing `\b`
holds only when a word character follows). `prevW` records whether the
previous character was a word character. -/
def matches18Plus : Bool → List Char → Bool
  | prevW, '1' :: '8' :: '+' :: d :: rest =>
      (!prevW && isWordChar d) || matches18Plus true ('8' :: '+' :: d :: rest)
  | _, c :: rest => matches18Plus (isWordChar c) rest
  | _, [] => false

/-- The toxicity pattern set: regex source text, the `\b`-delimited word
alternatives, and whether the pattern also carries the `18\+` branch. -/
def toxic_patterns : List (String × List String × Bool) :=
  [("\\b(идиот|дебил|тупой|дурак|кретин)\\b",
    (["идиот", "дебил", "тупой", "дурак", "кретин"], false)),
   ("\\b(ненавижу|убью|убить|смерть)\\b",
    (["ненавижу", "убью", "убить", "смерть"], false)),
   ("\\b(секс|порно|nsfw|18\\+)\\b",
    (["секс", "порно", "nsfw"], true)),
   ("\\b(наркотики|алкоголь|курить)\\b",
    (["наркотики", "алкоголь", "курить"], false))]

def matchesToxicPattern (lower : String) (toks : List String)
    (p : String × List String × Bool) : Bool :=
  p.2.1.any (fun w => toks.contains w) || (p.2.2 && matches18Plus false lower.data)

/-- A character admissible inside the URL regex body
`([a-zA-Z0-9$-_@.&+!*(),]...)`: letters and digits, the `$`–`_` range,
and `!`. -/
def urlChar (c : Char) : Bool :=
  c.isAlphanum || (0x24 ≤ c.toNat && c.toNat ≤ 0x5F) || c == '!'

/-- `http://` or `https://` starts here, followed by at least one URL
body character. -/
def urlAt (l : List Char) : Bool :=
  (match l.drop 7 with
   | d :: _ => listStartsWith l "http://".data && urlChar d
   | [] => false) ||
  (match l.drop 8 with
   | d :: _ => listStartsWith l "https://".data && urlChar d
   | [] => false)

def hasUrl : List Char → Bool
  | [] => false
  | c :: cs => urlAt (c :: cs) || hasUrl cs

def spam_word_sales : List String := ["купить", "продать", "заказать", "скидка", "акция"]

def spam_word_social : List String := ["подписывайтесь", "лайкайте", "репост"]

/-- One point per spam pattern that matches the lowered text: the URL
regex, the sales-words pattern, and the solicitation-words pattern. -/
def spam_score (lower : String) (toks : List String) : Nat :=
  (if hasUrl lower.data then 1 else 0) +
    (if toks.any (fun t => spam_word_sales.contains t) then 1 else 0) +
    (if toks.any (fun t => spam_word_social.contains t) then 1 else 0)

/-- `ContentModerator._suggest_replacement` (the `original_text`
argument is ignored by the source). -/
def suggest_replacement (issue : String) : String :=
  if pyContains issue "forbidden_topic" then "Извините, но я не могу обсуждать эту тему."
  else if pyContains issue "toxic_content" then "Давайте обсудим это более конструктивно."
  else if pyContains issue "spam" then "Извините, но это выглядит как реклама."
  else "Извините, но я не могу ответить на это сообщение."

/-- `ContentModerator._has_repeated_chars` with the default threshold 5:
the regex `(\S)\1{4,}` on the original text. -/
def has_repeated_chars (text : String) : Bool :=
  hasSameCharRun (fun c => !isWs c) 4 text.data

/-- `ContentModerator.check_message_safety`: returns
`(is_safe, reason, suggested_replacement)`.  Note the source returns
`(True, "empty_message", None)` — safe — for empty or whitespace-only
text. -/
def check_message_safety (text : String) : Bool × String × Option String :=
  if text == "" || pyStrip text == "" then (true, "empty_message", none)
  else
    let lower := pyLower text
    let toks := wordTokens lower
    if forbidden_topic_patterns.any (matchesTopicPattern toks) then
      (false, "forbidden_topic", some (suggest_replacement "forbidden_topic"))
    else
      match toxic_patterns.find? (matchesToxicPattern lower toks) with
      | some p => (false, "toxic_content", some (suggest_replacement p.1))
      | none =>
          if 2 ≤ spam_score lower toks then
            (false, "spam_detected", some (suggest_replacement "spam"))
          else if (pyStrip text).length < 3 then (false, "too_short", none)
          else if has_repeated_chars text then (false, "repeated_chars", none)
          else (true, "safe", none)

def group_keywords_list : List String :=
  ["совет", "опыт", "как сделать", "помогите", "вопрос"]

def min_group_message_length : Nat := 20

/-- `ContentModerator.filter_group_message`: reject empty text, then
unsafe text; accept on a keyword hit (substring of the lowered text);
otherwise require the configured minimum length. -/
def filter_group_message (text : String) (keywords : List String)
    (minLen : Nat) : Bool :=
  if text == "" then false
  else if !(check_message_safety text).1 then false
  else
    let lower := pyLower text
    if keywords.any (fun k => pyContains lower (pyLower k)) then true
    else decide (minLen ≤ (pyStrip text).length)

end Moderation

/-! ### Content filter — `ai/content_filter.py`

`ContentFilter.check_message` returns `(allowed, reason, details)`; the
`details` dictionary carries only logging metadata and is omitted
here. -/

namespace ContentFilter

structure FilterConfig where
  forbidden_keywords : List String
  forbidden_adult_keywords : List String
  forbidden_obscene_keywords : List String

def safe_domains : List String :=
  ["telegram.org", "t.me", "github.com", "stackoverflow.com",
   "wikipedia.org", "youtube.com", "google.com", "yandex.ru"]

def suspicious_words_commerce : List String :=
  ["купить", "продать", "заказать", "скидка", "акция", "бесплатно"]

def suspicious_words_money : List String :=
  ["деньги", "доллар", "рубль", "евро", "криптовалюта", "биткоин"]

/-- First keyword of the list occurring (lowered) as a substring of the
lowered text — `_check_forbidden_keywords` and friends. -/
def findKeyword (keywords : List String) (lower : String) : Option String :=
  keywords.find? (fun k => pyContains lower (pyLower k))

/-- Non-overlapping matches of `https?://\S+` in a character list. -/
def findUrls : List Char → List (List Char)
  | [] => []
  | c :: cs =>
      if listStartsWith (c :: cs) "http://".data ||
          listStartsWith (c :: cs) "https://".data then
        (c :: cs.takeWhile (fun d => !isWs d)) ::
          findUrls (cs.dropWhile (fun d => !isWs d))
      else findUrls cs
termination_by l => l.length
decreasing_by
  · exact Nat.lt_succ_of_le (List.dropWhile_suffix _).length_le
  · simp

/-- `ContentFilter._is_safe_url`. -/
def is_safe_url (url : String) : Bool :=
  safe_domains.any (fun d => pyContains url d)

/-- `ContentFilter._check_spam`: capital-letter runs, `!`/`?` runs,
over-long text, or a 5-run of one repeated character. -/
def check_spam (text : String) : Bool :=
  hasPredRun (fun c => 0x41 ≤ c.toNat && c.toNat ≤ 0x5A) 5 text.data ||
    hasPredRun (fun c => c == '!') 3 text.data ||
    hasPredRun (fun c => c == '?') 3 text.data ||
    decide (1000 < text.length) ||
    hasSameCharRun (fun c => !(c == '\n')) 4 text.data

/-- `ContentFilter._check_suspicious_content` on the lowered text. -/
def check_suspicious (lower : String) : Bool :=
  let toks := wordTokens lower
  toks.any (fun t => suspicious_words_commerce.contains t) ||
    toks.any (fun t => suspicious_words_money.contains t) ||
    (findUrls lower.data).any (fun u => !is_safe_url ⟨u⟩)

/-- `ContentFilter.check_message` (allowed flag and reason). -/
def check_message (cfg : FilterConfig) (text : String) : Bool × String :=
  if text == "" || pyStrip text == "" then (false, "Пустое сообщение")
  else
    let lower := pyLower text
    match findKeyword cfg.forbidden_keywords lower with
    | some kw => (false, "Запрещенная тема: " ++ kw)
    | none =>
        match findKeyword cfg.forbidden_adult_keywords lower with
        | some kw => (false, "Контент 18+: " ++ kw)
        | none =>
            match findKeyword cfg.forbidden_obscene_keywords lower with
            | some kw => (false, "Нецензурная лексика: " ++ kw)
            | none =>
                if check_spam text then (false, "Обнаружен спам")
                else if check_suspicious lower then (false, "Подозрительный контент")
                else (true, "ok")

end ContentFilter

/-! ### Group participation policy — `utils/policies.py` -/

namespace Policies

def listEndsWith (l pat : List Char) : Bool :=
  listStartsWith l.reverse pat.reverse

def pyEndsWith (s pat : String) : Bool :=
  listEndsWith s.data pat.data

def discussion_triggers : List String :=
  ["что думаете", "как считаете", "кто в теме", "обсуждение",
   "мнение", "совет", "помогите", "подскажите"]

/-- `PolicyManager.should_participate_in_group`.  The 5% random
fallback draw is abstracted as the boolean `luck`; every earlier check
short-circuits before it. -/
def should_participate_in_group (message : String) (keywords : List String)
    (luck : Bool) : Bool :=
  if message == "" || pyStrip message == "" then false
  else
    let lower := pyLower message
    if keywords.any (fun k => pyContains lower (pyLower k)) then true
    else if pyEndsWith (pyStrip message) "?" then true
    else if discussion_triggers.any (fun t => pyContains lower t) then true
    else luck

end Policies

/-! ### Anti-repetition — `src/policies.py` and
`bot_tg/src/dialog/manager.py`

Python's float similarity scores are modelled exactly as rationals; the
scores arising in these theorems are `0` and `1`, where float and
rational arithmetic agree. -/

namespace SrcPolicies

/-- `' '.join(words)` at the character level. -/
def joinWords : List String → List Char
  | [] => []
  | [w] => w.data
  | w :: w2 :: ws => w.data ++ ' ' :: joinWords (w2 :: ws)

/-- `normalize`: lower-case, strip and collapse whitespace
(`' '.join(s.lower().strip().split())`; stripping first does not change
the split). -/
def normalize (s : String) : String :=
  ⟨joinWords (pyWords (pyLower s))⟩

/-- `similarity`: Jaccard similarity of the word sets of the two
strings, with `0.0` when either set is empty.  Python's `set` is
modelled as a deduplicated list, `&` as a membership filter and `|` as
the deduplicated append. -/
def similarity (a b : String) : ℚ :=
  let sa := (pyWords a).dedup
  let sb := (pyWords b).dedup
  if sa.isEmpty || sb.isEmpty then 0
  else ((sa.filter (fun w => sb.contains w)).length : ℚ) /
    ((sa ++ sb.filter (fun w => !sa.contains w)).length : ℚ)

/-- `anti_repetition_ok`: `True` iff no recent outbound message is more
than 0.9-similar to the candidate (the source iterates `reversed(recent)`
and returns early; existence over the list is order-independent). -/
def anti_repetition_ok (recent : List (String × String × String))
    (next_text : String) : Bool :=
  !((recent.reverse).any (fun r =>
      r.1 == "out" && decide ((9 : ℚ) / 10 < similarity (normalize r.2.1) (normalize next_text))))

/-- `DialogManager._simple_similarity`: Jaccard over lower-cased word
sets, `0.0` when either set is empty. -/
def simple_similarity (text1 text2 : String) : ℚ :=
  let words1 := (pyWords (pyLower text1)).dedup
  let words2 := (pyWords (pyLower text2)).dedup
  if words1.isEmpty || words2.isEmpty then 0
  else ((words1.filter (fun w => words2.contains w)).length : ℚ) /
    ((words1 ++ words2.filter (fun w => !words1.contains w)).length : ℚ)

end SrcPolicies

/-! ### Cadence scheduler — `src/cadence.py` (and the identical hour
logic of `utils/cadence.py`)

A moment is an abstract calendar day plus wall-clock hour and minute in
the configured time zone; `datetime.replace(hour=..., minute=0, ...)`
keeps the day, `+ timedelta(days=1)` moves to the next day. -/

structure Cadence where
  quiet_start : Nat
  quiet_end : Nat

structure Moment where
  day : Int
  hour : Nat
  minute : Nat
deriving DecidableEq

/-- `Cadence.is_quiet`: half-open hour window, wrapping past midnight
when `quiet_start > quiet_end`. -/
def Cadence.is_quiet (c : Cadence) (m : Moment) : Bool :=
  if c.quiet_start ≤ c.quiet_end then
    decide (c.quiet_start ≤ m.hour) && decide (m.hour < c.quiet_end)
  else
    decide (c.quiet_start ≤ m.hour) || decide (m.hour < c.quiet_end)

/-- `Cadence.next_allowed_time`: identity outside the quiet window,
otherwise the `quiet_end` boundary today or (for a wrapped window whose
input hour is past the end) tomorrow. -/
def Cadence.next_allowed_time (c : Cadence) (m : Moment) : Moment :=
  if !(c.is_quiet m) then m
  else if c.quiet_start ≤ c.quiet_end then ⟨m.day, c.quiet_end, 0⟩
  else if m.hour < c.quiet_end then ⟨m.day, c.quiet_end, 0⟩
  else ⟨m.day + 1, c.quiet_end, 0⟩

/-! ### Rate limits, group cooldown and follow-ups —
`bot_tg/src/memory/store.py` and `bot_tg/src/dialog/manager.py`

The `daily_limits` table is keyed by `(user_id, date)` with a `UNIQUE`
constraint; one cell of that table is an `Option Nat` (`none` = row
absent).  Times are minute counts on one clock; a calendar date is an
abstract day number. -/

namespace BotStore

/-- The `INSERT ... ON CONFLICT(user_id, date) DO UPDATE` expression of
`increment_daily_limit`: a missing row is created with count 1, an
existing count is incremented but capped at `maxDaily`. -/
def upsertCount (maxDaily : Nat) : Option Nat → Nat
  | none => 1
  | some c => if maxDaily < c + 1 then maxDaily else c + 1

/-- `check_daily_limit`: a missing row counts as 0; allowed while the
count is strictly below the limit. -/
def check_daily_limit (maxDaily : Nat) (cell : Option Nat) : Bool :=
  cell.getD 0 < maxDaily

/-- One gated send on a `(user, date)` cell, as `process_private_message`
performs it: `check_daily_limit` gates, and only a successful send runs
`increment_daily_limit`.  Returns whether the send went out. -/
def attempt_send (maxDaily : Nat) (cell : Option Nat) : Bool × Option Nat :=
  if check_daily_limit maxDaily cell then (true, some (upsertCount maxDaily cell))
  else (false, cell)

/-- The cell after `n` send attempts on one date, starting from the
absent row a fresh date has. -/
def attempts (maxDaily : Nat) : Nat → Option Nat
  | 0 => none
  | n + 1 => (attempt_send maxDaily (attempts maxDaily n)).2

/-- The cell after `n` raw `increment_daily_limit` calls (no gate). -/
def increments (maxDaily : Nat) : Nat → Option Nat
  | 0 => none
  | n + 1 => some (upsertCount maxDaily (increments maxDaily n))

/-- A Python runtime value as it participates in `==`: SQLite hands
`last_comment_date` back as `str`, while the code compares it with a
`datetime.date`; Python equality across those types is always `False`. -/
inductive PyVal where
  | vstr : String → PyVal
  | vdate : Nat → PyVal
deriving DecidableEq

def pyEq : PyVal → PyVal → Bool
  | .vstr a, .vstr b => a == b
  | .vdate a, .vdate b => a == b
  | _, _ => false

/-- The ISO text under which the `sqlite3` adapter stores a
`datetime.date` (any injective rendering of the abstract day). -/
def dateText (d : Nat) : String :=
  toString d

structure GroupRow where
  last_comment_date : PyVal
  last_author_cooldown : Option Int
deriving DecidableEq

/-- `check_group_cooldown` for `(chat, author)`: no row means allowed;
otherwise the daily-cap comparison (`str` vs `date`!) and the
minutes-based author cooldown are checked in turn. -/
def check_group_cooldown (cooldownMinutes : Nat) (today : Nat) (now : Int)
    (ga : Nat → Nat → Option GroupRow) (chat author : Nat) : Bool :=
  let cooldown_time : Int := now - cooldownMinutes
  match ga chat author with
  | none => true
  | some row =>
      if pyEq row.last_comment_date (PyVal.vdate today) then false
      else if (match row.last_author_cooldown with
               | some t => decide (cooldown_time < t)
               | none => false) then false
      else true

/-- `update_group_activity`: `INSERT OR REPLACE` of the `(chat, author)`
row with today's date (stored as TEXT) and the current timestamp. -/
def update_group_activity (today : Nat) (now : Int)
    (ga : Nat → Nat → Option GroupRow) (chat author : Nat) :
    Nat → Nat → Option GroupRow :=
  fun c a =>
    if c == chat && a == author then some ⟨PyVal.vstr (dateText today), some now⟩
    else ga c a

/-- A row of the `follow_ups` table (the columns the sweep reads). -/
structure FollowUpRow where
  id : Nat
  user_id : Nat
  status : String
deriving DecidableEq

/-- `get_pending_follow_ups`: all rows with `status = 'pending'`,
regardless of date. -/
def get_pending_follow_ups (fus : List FollowUpRow) : List FollowUpRow :=
  fus.filter (fun f => f.status == "pending")

/-- `mark_follow_up_sent`: set `status = 'sent'` on the row with the
given id. -/
def mark_follow_up_sent (fus : List FollowUpRow) (i : Nat) : List FollowUpRow :=
  fus.map (fun f => if f.id == i then ⟨f.id, f.user_id, "sent"⟩ else f)

/-- `DialogManager.process_follow_ups`: walk the pending rows and
collect those that pass the pause / quiet-hours / daily-limit gates.
The gates read state this model does not carry, so their combined
outcome is an arbitrary per-row oracle `skip`; the once-only property
below holds for every oracle.  Returns the ids handed to the sender. -/
def process_follow_ups (skip : Nat → Bool) (fus : List FollowUpRow) : List Nat :=
  ((get_pending_follow_ups fus).filter (fun f => !skip f.id)).map (fun f => f.id)

/-- One tick of `_follow_up_worker`: collect the sendable follow-ups,
send each and mark it `sent`. -/
def sweep (skip : Nat → Bool) (fus : List FollowUpRow) :
    List Nat × List FollowUpRow :=
  let sends := process_follow_ups skip fus
  (sends, sends.foldl mark_follow_up_sent fus)

/-- All ids sent over a whole run of periodic ticks. -/
def runSweeps : List (Nat → Bool) → List FollowUpRow → List Nat
  | [], _ => []
  | e :: es, fus => (sweep e fus).1 ++ runSweeps es (sweep e fus).2

end BotStore

/-! ### Persistence contract — `src/storage.py` (SQLite, relational)

`init_db` declares `users` (with the unique index on
`(platform, platform_user_id)`), `messages` and `followups`, the latter
two with `FOREIGN KEY ... ON DELETE CASCADE` and `PRAGMA
foreign_keys=ON` active on every connection.  `AUTOINCREMENT` row ids
are modelled by the `next_*` counters. -/

namespace SrcStorage

structure User where
  id : Nat
  platform : String
  platform_user_id : String
  username : Option String
  consent : Bool
  paused : Bool
  last_contact_at : Option String
  daily_msg_count : Nat
  last_reset_date : Option String
deriving DecidableEq

structure MessageRow where
  user_id : Nat
  direction : String
  content : String
  created_at : String
deriving DecidableEq

structure FollowupRow where
  id : Nat
  user_id : Nat
  due_at : Nat
  reason : String
deriving DecidableEq

structure DB where
  users : List User
  messages : List MessageRow
  followups : List FollowupRow
  next_user_id : Nat
  next_followup_id : Nat
deriving DecidableEq

/-- The column defaults of the `users` table
(`consent 0, paused 0, daily_msg_count 0`, `NULL` elsewhere). -/
def defaultUser (i : Nat) (p puid : String) (uname : Option String) : User :=
  ⟨i, p, puid, uname, false, false, none, 0, none⟩

def userMatches (p puid : String) (u : User) : Bool :=
  u.platform == p && u.platform_user_id == puid

def get_user_by_platform_id (db : DB) (p puid : String) : Option User :=
  db.users.find? (userMatches p puid)

def get_user_by_id (db : DB) (uid : Nat) : Option User :=
  db.users.find? (fun u => u.id == uid)

/-- `upsert_user`: `INSERT ... ON CONFLICT(platform, platform_user_id)
DO UPDATE SET username=excluded.username`, then `SELECT` of the row. -/
def upsert_user (db : DB) (p puid : String) (uname : Option String) :
    User × DB :=
  match get_user_by_platform_id db p puid with
  | some u =>
      ({u with username := uname},
       {db with users := db.users.map (fun v =>
          if userMatches p puid v then {v with username := uname} else v)})
  | none =>
      let nu := defaultUser db.next_user_id p puid uname
      (nu, {db with users := db.users ++ [nu],
                    next_user_id := db.next_user_id + 1})

/-- `delete_user` with the schema's `ON DELETE CASCADE`: the user row
and every message and follow-up owned by it disappear. -/
def delete_user (db : DB) (uid : Nat) : DB :=
  {db with users := db.users.filter (fun u => !(u.id == uid)),
           messages := db.messages.filter (fun m => !(m.user_id == uid)),
           followups := db.followups.filter (fun f => !(f.user_id == uid))}

/-- The `direction == 'out'` branch of `record_message` applied to the
owning user row: lazy daily reset when `last_reset_date` differs from
today, then increment, stamping today and the contact time. -/
def bump_daily (u : User) (today now_iso : String) : User :=
  let c := if u.last_reset_date == some today then u.daily_msg_count else 0
  ⟨u.id, u.platform, u.platform_user_id, u.username, u.consent, u.paused,
   some now_iso, c + 1, some today⟩

/-- `record_message`: append the message row; for an outbound message
also bump the owner's daily counter (with the lazy date rollover), for
an inbound one only refresh `last_contact_at`. -/
def record_message (db : DB) (uid : Nat)
    (direction content now_iso today : String) : DB :=
  let db1 := {db with messages :=
    db.messages ++ [(⟨uid, direction, content, now_iso⟩ : MessageRow)]}
  if direction == "out" then
    {db1 with users := db1.users.map (fun (u : User) =>
       if u.id == uid then bump_daily u today now_iso else u)}
  else
    {db1 with users := db1.users.map (fun (u : User) =>
       if u.id == uid then {u with last_contact_at := some now_iso} else u)}

/-- `get_recent_messages`: `ORDER BY id DESC LIMIT n`, then reversed
back to chronological order; insertion order realises the id order. -/
def get_recent_messages (db : DB) (uid : Nat) (limit : Nat) :
    List (String × String × String) :=
  ((((db.messages.filter (fun m => m.user_id == uid)).reverse).take limit).reverse).map
    (fun m => (m.direction, m.content, m.created_at))

def schedule_followup (db : DB) (uid : Nat) (due : Nat) (reason : String) : DB :=
  {db with followups := db.followups ++ [⟨db.next_followup_id, uid, due, reason⟩],
           next_followup_id := db.next_followup_id + 1}

/-- `due_followups`: all follow-ups with `due_at <= now` (the `ORDER BY
due_at` of the query only fixes the processing order inside one tick;
the properties proved below are order-independent). -/
def due_followups (db : DB) (now : Nat) : List FollowupRow :=
  db.followups.filter (fun f => decide (f.due_at ≤ now))

def delete_followup (db : DB) (i : Nat) : DB :=
  {db with followups := db.followups.filter (fun f => !(f.id == i))}

/-- `can_send_to_user` — `src/policies.py`: pause, consent and the
daily cap, in that order. -/
def can_send_to_user (u : User) (maxDaily : Nat) : Bool × String :=
  if u.paused then (false, "paused")
  else if !u.consent then (false, "no_consent")
  else if maxDaily ≤ u.daily_msg_count then (false, "daily_limit")
  else (true, "ok")

/-- The pair that the unique index `idx_users_platform_uid` ranges
over. -/
def userKey (u : User) : String × String :=
  (u.platform, u.platform_user_id)

/-- Well-formedness of the store: `AUTOINCREMENT` ids are below the next
free id, the unique index holds, ids are distinct, and the foreign keys
of `messages` and `followups` point at allocated ids. -/
def DBWF (db : DB) : Prop :=
  (∀ u ∈ db.users, u.id < db.next_user_id) ∧
  (db.users.map userKey).Nodup ∧
  (db.users.map (fun u => u.id)).Nodup ∧
  (∀ m ∈ db.messages, m.user_id < db.next_user_id) ∧
  (∀ f ∈ db.followups, f.user_id < db.next_user_id)

/-- Per-tick environment of `_check_followups_job`: the clock, the
generated nudge text, the cadence scheduler's draw for the next
follow-up, and whether the transport send raises (caught) for a given
follow-up id. -/
structure SweepEnv where
  now : Nat
  now_iso : String
  today : String
  text : String
  next_due : Nat
  cap : Nat
  sendOk : Nat → Bool

/-- The body of `_check_followups_job`'s loop over the due snapshot:
missing user / failed policy / repetition each delete the follow-up and
move on; otherwise the send is attempted (emitting the follow-up id),
a successful send records the outbound message, the `finally` block
deletes the follow-up, and a fresh one is scheduled. -/
def processDue (env : SweepEnv) :
    List FollowupRow → DB → List Nat × DB
  | [], db => ([], db)
  | f :: rest, db =>
      match get_user_by_id db f.user_id with
      | none => processDue env rest (delete_followup db f.id)
      | some user =>
          if !(can_send_to_user user env.cap).1 then
            processDue env rest (delete_followup db f.id)
          else if !(SrcPolicies.anti_repetition_ok
              (get_recent_messages db user.id 20) env.text) then
            processDue env rest (delete_followup db f.id)
          else
            let db1 := if env.sendOk f.id then
                record_message db user.id "out" env.text env.now_iso env.today
              else db
            let db2 := schedule_followup (delete_followup db1 f.id) user.id
                env.next_due "gentle_followup"
            let r := processDue env rest db2
            (f.id :: r.1, r.2)

/-- One run of `_check_followups_job`: snapshot the due follow-ups,
then process them against the live store. -/
def check_followups_job (env : SweepEnv) (db : DB) : List Nat × DB :=
  processDue env (due_followups db env.now) db

/-- All follow-up ids for which a send was attempted over a run of
periodic ticks. -/
def runJobs : List SweepEnv → DB → List Nat
  | [], _ => []
  | e :: es, db =>
      (check_followups_job e db).1 ++ runJobs es (check_followups_job e db).2

/-- A small example store for witnesses: one consenting user owning one
message and one follow-up. -/
def exUser : User := ⟨0, "tg", "42", some "al", true, false, none, 3, some "d"⟩

def exDB : DB := ⟨[exUser], [⟨0, "in", "hi", "t"⟩], [⟨0, 0, 5, "r"⟩], 1, 1⟩

/-- An example sweep environment for witnesses. -/
def exEnv : SweepEnv := ⟨10, "T10", "d", "привет как дела", 30, 5, fun _ => true⟩

/-- Well-formedness of the `followups` table: `AUTOINCREMENT` ids stay
below the next free id and are pairwise distinct. -/
def FuWF (db : DB) : Prop :=
  (∀ f ∈ db.followups, f.id < db.next_followup_id) ∧
    (db.followups.map (fun f => f.id)).Nodup

end SrcStorage

/-! ### Helper lemmas about the string primitives -/

theorem splitByAux_keep {keep : Char → Bool} :
    ∀ (l acc : List Char), (∀ c ∈ acc, keep c = true) →
      ∀ t ∈ splitByAux keep l acc, t ≠ [] ∧ ∀ c ∈ t, keep c = true := by
  intro l
  induction l with
  | nil =>
      intro acc hacc t ht
      simp only [splitByAux] at ht
      by_cases h : acc.isEmpty
      · simp [h] at ht
      · simp [h] at ht
        subst ht
        refine ⟨by simpa using h, ?_⟩
        intro c hc
        exact hacc c (by simpa using hc)
  | cons c cs ih =>
      intro acc hacc t ht
      simp only [splitByAux] at ht
      by_cases hk : keep c
      · rw [if_pos hk] at ht
        refine ih (c :: acc) ?_ t ht
        intro d hd
        rcases List.mem_cons.1 hd with rfl | hd
        · exact hk
        · exact hacc d hd
      · rw [if_neg hk] at ht
        by_cases he : acc.isEmpty
        · rw [if_pos he] at ht
          exact ih [] (by simp) t ht
        · rw [if_neg he] at ht
          rcases List.mem_cons.1 ht with rfl | ht
          · refine ⟨by simpa using he, ?_⟩
            intro d hd
            exact hacc d (by simpa using hd)
          · exact ih [] (by simp) t ht

theorem splitByAux_subset {keep : Char → Bool} :
    ∀ (l acc : List Char), ∀ t ∈ splitByAux keep l acc, ∀ c ∈ t, c ∈ l ∨ c ∈ acc := by
  intro l
  induction l with
  | nil =>
      intro acc t ht c hc
      simp only [splitByAux] at ht
      by_cases h : acc.isEmpty
      · simp [h] at ht
      · simp [h] at ht
        subst ht
        exact Or.inr (by simpa using hc)
  | cons d ds ih =>
      intro acc t ht c hc
      simp only [splitByAux] at ht
      by_cases hk : keep d
      · rw [if_pos hk] at ht
        rcases ih (d :: acc) t ht c hc with h | h
        · exact Or.inl (List.mem_cons_of_mem _ h)
        · rcases List.mem_cons.1 h with rfl | h
          · exact Or.inl (by simp)
          · exact Or.inr h
      · rw [if_neg hk] at ht
        by_cases he : acc.isEmpty
        · rw [if_pos he] at ht
          rcases ih [] t ht c hc with h | h
          · exact Or.inl (List.mem_cons_of_mem _ h)
          · simp at h
        · rw [if_neg he] at ht
          rcases List.mem_cons.1 ht with rfl | ht
          · exact Or.inr (by simpa using hc)
          · rcases ih [] t ht c hc with h | h
            · exact Or.inl (List.mem_cons_of_mem _ h)
            · simp at h

theorem splitByAux_ne_nil {keep : Char → Bool} :
    ∀ (l acc : List Char), ((∃ c ∈ l, keep c = true) ∨ acc ≠ []) →
      splitByAux keep l acc ≠ [] := by
  intro l
  induction l with
  | nil =>
      intro acc h
      rcases h with ⟨c, hc, _⟩ | h
      · simp at hc
      · simp only [splitByAux]
        rw [if_neg (by simpa using h)]
        simp
  | cons c cs ih =>
      intro acc h
      simp only [splitByAux]
      by_cases hk : keep c
      · rw [if_pos hk]
        exact ih (c :: acc) (Or.inr (by simp))
      · rw [if_neg hk]
        by_cases he : acc.isEmpty
        · rw [if_pos he]
          refine ih [] (Or.inl ?_)
          rcases h with ⟨d, hd, hkd⟩ | h
          · rcases List.mem_cons.1 hd with rfl | hd
            · exact absurd hkd hk
            · exact ⟨d, hd, hkd⟩
          · exact absurd (by simpa using he) h
        · rw [if_neg he]
          simp

/-- Membership in `splitBy` unpacked to character lists. -/
theorem splitBy_mem {keep : Char → Bool} {s : String} {t : String}
    (ht : t ∈ splitBy keep s) :
    t.data ≠ [] ∧ (∀ c ∈ t.data, keep c = true) ∧ ∀ c ∈ t.data, c ∈ s.data := by
  rcases List.mem_map.1 ht with ⟨l, hl, rfl⟩
  have h1 := splitByAux_keep s.data [] (by simp) l hl
  have h2 := splitByAux_subset s.data [] l hl
  exact ⟨h1.1, h1.2, fun c hc => (h2 c hc).resolve_right (by simp)⟩

/-- A whitespace character is left unchanged by `lowerChar` and is not a
word character. -/
theorem isWs_lower_not_word {c : Char} (h : isWs c = true) :
    isWordChar (lowerChar c) = false := by
  have : c = ' ' ∨ c = '\t' ∨ c = '\r' ∨ c = '\n' := by
    simp only [isWs, Bool.or_eq_true, decide_eq_true_eq] at h
    tauto
  rcases this with rfl | rfl | rfl | rfl <;> decide

/-- A string containing a non-whitespace character does not strip to
the empty string. -/
theorem pyStrip_ne_empty {s : String} {c : Char}
    (hc : c ∈ s.data) (hw : isWs c = false) : ¬(pyStrip s = "") := by
  intro h
  have hnil : stripChars s.data = [] := congrArg String.data h
  have h1 : (s.data.dropWhile isWs).reverse.dropWhile isWs = [] := by
    have := congrArg List.reverse hnil
    simpa [stripChars] using this
  have h2 : ∀ a ∈ (s.data.dropWhile isWs).reverse, isWs a = true :=
    List.dropWhile_eq_nil_iff.1 h1
  have h3 : ∀ a ∈ s.data.dropWhile isWs, isWs a = true := by
    intro a ha
    exact h2 a (List.mem_reverse.2 ha)
  have hsplit : s.data.takeWhile isWs ++ s.data.dropWhile isWs = s.data :=
    List.takeWhile_append_dropWhile isWs s.data
  have h4 : ∀ a ∈ s.data, isWs a = true := by
    intro a ha
    rw [← hsplit] at ha
    rcases List.mem_append.1 ha with h | h
    · exact List.mem_takeWhile_imp h
    · exact h3 a h
  rw [h4 c hc] at hw
  exact Bool.noConfusion hw

/-- The head word of a join is contained in the join. -/
theorem mem_joinWords_of_mem_head {c : Char} {w : String} (ws : List String)
    (hc : c ∈ w.data) : c ∈ SrcPolicies.joinWords (w :: ws) := by
  cases ws with
  | nil => simpa [SrcPolicies.joinWords] using hc
  | cons w2 ws => simp [SrcPolicies.joinWords, hc]

/-- If a string has any words, so does its `normalize` image. -/
theorem normalize_words_ne_nil {s : String}
    (h : pyWords (pyLower s) ≠ []) : pyWords (SrcPolicies.normalize s) ≠ [] := by
  obtain ⟨w, ws, hws⟩ := List.exists_cons_of_ne_nil h
  have hw : w ∈ pyWords (pyLower s) := by rw [hws]; simp
  obtain ⟨hne, hkeep, -⟩ := splitBy_mem hw
  obtain ⟨c, hc⟩ := List.exists_mem_of_ne_nil _ hne
  have hcj : c ∈ (SrcPolicies.normalize s).data := by
    show c ∈ SrcPolicies.joinWords (pyWords (pyLower s))
    rw [hws]
    exact mem_joinWords_of_mem_head ws hc
  have hax := @splitByAux_ne_nil (fun c => !isWs c)
      (SrcPolicies.normalize s).data [] (Or.inl ⟨c, hcj, hkeep c hc⟩)
  simpa [pyWords, splitBy] using hax

/-- The Jaccard score of two no-word strings is 0 (either Python set is
empty). -/
theorem similarity_zero_of_no_words {a b : String}
    (h : pyWords a = [] ∨ pyWords b = []) : SrcPolicies.similarity a b = 0 := by
  rcases h with h | h <;> simp [SrcPolicies.similarity, h]

/-- Same for the dialog manager's variant. -/
theorem simple_similarity_zero_of_no_words {a b : String}
    (h : pyWords (pyLower a) = [] ∨ pyWords (pyLower b) = []) :
    SrcPolicies.simple_similarity a b = 0 := by
  rcases h with h | h <;> simp [SrcPolicies.simple_similarity, h]

/-- Jaccard self-similarity is 1 for a string with a non-empty word
set. -/
theorem similarity_self {a : String} (h : pyWords a ≠ []) :
    SrcPolicies.similarity a a = 1 := by
  have hd : (pyWords a).dedup ≠ [] := by
    simpa [List.dedup_eq_nil] using h
  have hemp : (pyWords a).dedup.isEmpty = false := by
    cases hdd : (pyWords a).dedup with
    | nil => exact absurd hdd hd
    | cons x xs => rfl
  have hfself : List.filter (fun w => (pyWords a).dedup.contains w)
      (pyWords a).dedup = (pyWords a).dedup :=
    List.filter_eq_self.2 (fun w hw => List.elem_eq_true_of_mem hw)
  have hfnil : List.filter (fun w => !(pyWords a).dedup.contains w)
      (pyWords a).dedup = [] :=
    List.filter_eq_nil_iff.2 (fun w hw hcon => by
      have hc : (pyWords a).dedup.contains w = true := List.elem_eq_true_of_mem hw
      rw [hc] at hcon
      simp at hcon)
  have hlen : (((pyWords a).dedup.length : ℚ)) ≠ 0 := by
    have hp := List.length_pos.2 hd
    exact_mod_cast Nat.pos_iff_ne_zero.1 hp
  simp only [SrcPolicies.similarity]
  rw [hemp, hfself, hfnil]
  simp [div_self hlen]

/-- The daily cell after `n` gated send attempts holds `min n cap`. -/
theorem attempts_getD (cap n : Nat) :
    (BotStore.attempts cap n).getD 0 = min n cap := by
  induction n with
  | zero => simp [BotStore.attempts]
  | succ n ih =>
      rw [BotStore.attempts]
      cases hcell : BotStore.attempts cap n with
      | none =>
          rw [hcell] at ih
          simp only [Option.getD_none] at ih
          by_cases h : (0 : Nat) < cap
          · simp [BotStore.attempt_send, BotStore.check_daily_limit,
              BotStore.upsertCount, h]
            omega
          · simp [BotStore.attempt_send, BotStore.check_daily_limit, h]
            omega
      | some c =>
          rw [hcell] at ih
          simp only [Option.getD_some] at ih
          by_cases h : c < cap
          · simp [BotStore.attempt_send, BotStore.check_daily_limit,
              BotStore.upsertCount, h]
            split <;> omega
          · simp [BotStore.attempt_send, BotStore.check_daily_limit, h]
            omega

/-- The daily cell after `n` raw clamped increments holds `min n cap`
for any positive cap. -/
theorem increments_getD (cap n : Nat) (h : 1 ≤ cap) :
    (BotStore.increments cap n).getD 0 = min n cap := by
  induction n with
  | zero => simp [BotStore.increments]
  | succ n ih =>
      rw [BotStore.increments]
      cases hcell : BotStore.increments cap n with
      | none =>
          rw [hcell] at ih
          simp only [Option.getD_none] at ih
          simp [BotStore.upsertCount]
          omega
      | some c =>
          rw [hcell] at ih
          simp only [Option.getD_some] at ih
          simp [BotStore.upsertCount]
          split <;> omega

/-- A predicate that forces a duplicate image can hold at most once in a
list whose image is duplicate-free. -/
theorem countP_le_one_of_nodup_map {α β : Type} (f : α → β) (q : α → Bool) :
    ∀ l : List α, (l.map f).Nodup →
      (∀ x y, q x = true → q y = true → f x = f y) → l.countP q ≤ 1 := by
  intro l
  induction l with
  | nil => intro _ _; simp
  | cons a l ih =>
      intro hnd hq
      have hnd' : (l.map f).Nodup := (List.nodup_cons.1 (by simpa using hnd)).2
      have hna : f a ∉ l.map f := (List.nodup_cons.1 (by simpa using hnd)).1
      rw [List.countP_cons]
      by_cases hqa : q a = true
      · have hzero : l.countP q = 0 := by
          by_contra hpos
          obtain ⟨b, hb, hqb⟩ :=
            List.countP_pos.1 (Nat.pos_of_ne_zero hpos)
          exact hna (List.mem_map.2 ⟨b, hb, (hq b a hqb hqa)⟩)
        simp [hzero, hqa]
      · have hle : l.countP q ≤ 1 := ih hnd' hq
        have : (if q a = true then 1 else 0) = 0 := by simp [hqa]
        omega

/-- Exactly one row matches the unique `(platform, platform_user_id)`
pair once one matching row exists. -/
theorem countP_userMatches_eq_one {db : SrcStorage.DB} {p puid : String}
    {r0 : SrcStorage.User} (hnd : (db.users.map SrcStorage.userKey).Nodup)
    (hr0 : r0 ∈ db.users) (hm : SrcStorage.userMatches p puid r0 = true) :
    db.users.countP (SrcStorage.userMatches p puid) = 1 := by
  have hq : ∀ x y, SrcStorage.userMatches p puid x = true →
      SrcStorage.userMatches p puid y = true →
      SrcStorage.userKey x = SrcStorage.userKey y := by
    intro x y hx hy
    simp only [SrcStorage.userMatches, Bool.and_eq_true, beq_iff_eq] at hx hy
    simp [SrcStorage.userKey, hx.1, hx.2, hy.1, hy.2]
  have hle := countP_le_one_of_nodup_map SrcStorage.userKey
    (SrcStorage.userMatches p puid) db.users hnd hq
  have hge : 0 < db.users.countP (SrcStorage.userMatches p puid) :=
    List.countP_pos.2 ⟨r0, hr0, hm⟩
  omega

/-! ### Lemmas for the follow-up sweep (bot_tg model) -/

theorem mark_map_id (fus : List BotStore.FollowUpRow) (i : Nat) :
    (BotStore.mark_follow_up_sent fus i).map (fun f => f.id) =
      fus.map (fun f => f.id) := by
  unfold BotStore.mark_follow_up_sent
  rw [List.map_map]
  apply List.map_congr_left
  intro f _
  by_cases h : f.id = i <;> simp [h]

theorem foldl_mark_map_id :
    ∀ (l : List Nat) (fus : List BotStore.FollowUpRow),
      (l.foldl BotStore.mark_follow_up_sent fus).map (fun f => f.id) =
        fus.map (fun f => f.id) := by
  intro l
  induction l with
  | nil => intro fus; rfl
  | cons a l ih => intro fus; rw [List.foldl_cons, ih, mark_map_id]

theorem mark_sent_of_id (fus : List BotStore.FollowUpRow) (i : Nat) :
    ∀ f ∈ BotStore.mark_follow_up_sent fus i, f.id = i → f.status = "sent" := by
  intro f hf hid
  simp only [BotStore.mark_follow_up_sent, List.mem_map] at hf
  obtain ⟨g, hg, hfg⟩ := hf
  by_cases h : g.id == i
  · rw [if_pos h] at hfg
    rw [← hfg]
  · rw [if_neg h] at hfg
    subst hfg
    exact absurd (by simp [hid]) h

theorem mark_keeps_sent (i j : Nat) (fus : List BotStore.FollowUpRow)
    (h : ∀ f ∈ fus, f.id = i → f.status = "sent") :
    ∀ f ∈ BotStore.mark_follow_up_sent fus j, f.id = i → f.status = "sent" := by
  intro f hf hid
  simp only [BotStore.mark_follow_up_sent, List.mem_map] at hf
  obtain ⟨g, hg, hfg⟩ := hf
  by_cases hj : g.id == j
  · rw [if_pos hj] at hfg
    rw [← hfg]
  · rw [if_neg hj] at hfg
    subst hfg
    exact h g hg hid

theorem foldl_mark_keeps_sent (i : Nat) :
    ∀ (l : List Nat) (fus : List BotStore.FollowUpRow),
      (∀ f ∈ fus, f.id = i → f.status = "sent") →
      ∀ f ∈ l.foldl BotStore.mark_follow_up_sent fus, f.id = i →
        f.status = "sent" := by
  intro l
  induction l with
  | nil => intro fus h; exact h
  | cons a l ih => intro fus h; exact ih _ (mark_keeps_sent i a fus h)

theorem foldl_mark_sent_of_mem (i : Nat) :
    ∀ (l : List Nat) (fus : List BotStore.FollowUpRow), i ∈ l →
      ∀ f ∈ l.foldl BotStore.mark_follow_up_sent fus, f.id = i →
        f.status = "sent" := by
  intro l
  induction l with
  | nil => intro fus h; simp at h
  | cons a l ih =>
      intro fus hmem f hf hid
      rcases List.mem_cons.1 hmem with rfl | hmem'
      · exact foldl_mark_keeps_sent i l (BotStore.mark_follow_up_sent fus i)
          (mark_sent_of_id fus i) f hf hid
      · exact ih _ hmem' f hf hid

theorem sent_not_in_process (skip : Nat → Bool)
    (fus : List BotStore.FollowUpRow) (i : Nat)
    (h : ∀ f ∈ fus, f.id = i → f.status = "sent") :
    i ∉ BotStore.process_follow_ups skip fus := by
  intro hmem
  simp only [BotStore.process_follow_ups, BotStore.get_pending_follow_ups,
    List.mem_map] at hmem
  obtain ⟨f, hf, hfid⟩ := hmem
  have hf1 := List.mem_of_mem_filter hf
  have hf2 := List.mem_filter.1 hf1
  have hsent := h f hf2.1 hfid
  exact absurd hf2.2 (by simp [hsent])

theorem process_count_le_one (skip : Nat → Bool)
    (fus : List BotStore.FollowUpRow) (i : Nat)
    (hnd : (fus.map (fun f => f.id)).Nodup) :
    (BotStore.process_follow_ups skip fus).count i ≤ 1 := by
  have hsub : (((fus.filter (fun f => f.status == "pending")).filter
        (fun f => !skip f.id)).map (fun f => f.id)).Sublist
      (fus.map (fun f => f.id)) :=
    List.Sublist.map _ ((List.filter_sublist _).trans (List.filter_sublist _))
  have hle := hsub.count_le i
  have hone := List.nodup_iff_count_le_one.1 hnd i
  simpa [BotStore.process_follow_ups, BotStore.get_pending_follow_ups] using
    Nat.le_trans hle hone

theorem bot_dead :
    ∀ (envs : List (Nat → Bool)) (fus : List BotStore.FollowUpRow) (i : Nat),
      (∀ f ∈ fus, f.id = i → f.status = "sent") →
      (BotStore.runSweeps envs fus).count i = 0 := by
  intro envs
  induction envs with
  | nil => intro fus i _; simp [BotStore.runSweeps]
  | cons e es ih =>
      intro fus i hsent
      rw [BotStore.runSweeps, List.count_append]
      have h1 : (BotStore.sweep e fus).1.count i = 0 :=
        List.count_eq_zero.2 (sent_not_in_process e fus i hsent)
      have h2 := ih (BotStore.sweep e fus).2 i
        (foldl_mark_keeps_sent i (BotStore.process_follow_ups e fus) fus hsent)
      omega

theorem bot_runSweeps_count_le_one :
    ∀ (envs : List (Nat → Bool)) (fus : List BotStore.FollowUpRow) (i : Nat),
      (fus.map (fun f => f.id)).Nodup →
      (BotStore.runSweeps envs fus).count i ≤ 1 := by
  intro envs
  induction envs with
  | nil => intro fus i _; simp [BotStore.runSweeps]
  | cons e es ih =>
      intro fus i hnd
      rw [BotStore.runSweeps, List.count_append]
      have hnd' : ((BotStore.sweep e fus).2.map (fun f => f.id)).Nodup := by
        have := foldl_mark_map_id (BotStore.process_follow_ups e fus) fus
        simpa [BotStore.sweep, this] using hnd
      by_cases hi : i ∈ (BotStore.sweep e fus).1
      · have h1 : (BotStore.sweep e fus).1.count i ≤ 1 :=
          process_count_le_one e fus i hnd
        have hsent : ∀ f ∈ (BotStore.sweep e fus).2, f.id = i →
            f.status = "sent" :=
          foldl_mark_sent_of_mem i (BotStore.process_follow_ups e fus) fus hi
        have h0 := bot_dead es (BotStore.sweep e fus).2 i hsent
        omega
      · have h1 : (BotStore.sweep e fus).1.count i = 0 := List.count_eq_zero.2 hi
        have h2 := ih (BotStore.sweep e fus).2 i hnd'
        omega

/-! ### Lemmas for the follow-up sweep (src model) -/

theorem record_message_followups (db : SrcStorage.DB) (uid : Nat)
    (d c n t : String) :
    (SrcStorage.record_message db uid d c n t).followups = db.followups := by
  unfold SrcStorage.record_message
  split <;> rfl

theorem record_message_next_fu (db : SrcStorage.DB) (uid : Nat)
    (d c n t : String) :
    (SrcStorage.record_message db uid d c n t).next_followup_id =
      db.next_followup_id := by
  unfold SrcStorage.record_message
  split <;> rfl

theorem not_mem_ids_delete_self (db : SrcStorage.DB) (i : Nat) :
    i ∉ (SrcStorage.delete_followup db i).followups.map (fun f => f.id) := by
  intro h
  obtain ⟨f, hf, hfid⟩ := List.mem_map.1 h
  have hp := (List.mem_filter.1 hf).2
  simp [hfid] at hp

theorem not_mem_ids_delete (db : SrcStorage.DB) (i j : Nat)
    (h : j ∉ db.followups.map (fun f => f.id)) :
    j ∉ (SrcStorage.delete_followup db i).followups.map (fun f => f.id) := by
  intro hmem
  obtain ⟨f, hf, hfid⟩ := List.mem_map.1 hmem
  exact h (List.mem_map.2 ⟨f, List.mem_of_mem_filter hf, hfid⟩)

theorem not_mem_ids_schedule (db : SrcStorage.DB) (u due : Nat) (r : String)
    (j : Nat) (hj : j < db.next_followup_id)
    (h : j ∉ db.followups.map (fun f => f.id)) :
    j ∉ (SrcStorage.schedule_followup db u due r).followups.map
      (fun f => f.id) := by
  intro hmem
  simp only [SrcStorage.schedule_followup, List.map_append, List.mem_append,
    List.map_cons, List.map_nil, List.mem_singleton] at hmem
  rcases hmem with hmem | hmem
  · exact h hmem
  · omega

theorem fuwf_delete (db : SrcStorage.DB) (i : Nat)
    (h : SrcStorage.FuWF db) : SrcStorage.FuWF (SrcStorage.delete_followup db i) := by
  constructor
  · intro f hf
    exact h.1 f (List.mem_of_mem_filter hf)
  · exact ((List.filter_sublist _).map _).nodup h.2

theorem fuwf_schedule (db : SrcStorage.DB) (u due : Nat) (r : String)
    (h : SrcStorage.FuWF db) :
    SrcStorage.FuWF (SrcStorage.schedule_followup db u due r) := by
  constructor
  · intro f hf
    simp only [SrcStorage.schedule_followup, List.mem_append,
      List.mem_singleton] at hf
    rcases hf with hf | hf
    · have := h.1 f hf
      simp only [SrcStorage.schedule_followup]
      omega
    · subst hf
      simp [SrcStorage.schedule_followup]
  · simp only [SrcStorage.schedule_followup, List.map_append, List.map_cons,
      List.map_nil]
    rw [List.nodup_append]
    refine ⟨h.2, List.nodup_singleton _, ?_⟩
    intro x hx
    obtain ⟨f, hf, hfid⟩ := List.mem_map.1 hx
    have := h.1 f hf
    simp only [List.mem_singleton]
    omega

theorem fuwf_record (db : SrcStorage.DB) (uid : Nat) (d c n t : String)
    (h : SrcStorage.FuWF db) :
    SrcStorage.FuWF (SrcStorage.record_message db uid d c n t) := by
  constructor
  · intro f hf
    rw [record_message_followups] at hf
    rw [record_message_next_fu]
    exact h.1 f hf
  · rw [record_message_followups]
    exact h.2

theorem processDue_cons_none (env : SrcStorage.SweepEnv)
    (f : SrcStorage.FollowupRow) (rest : List SrcStorage.FollowupRow)
    (db : SrcStorage.DB)
    (h : SrcStorage.get_user_by_id db f.user_id = none) :
    SrcStorage.processDue env (f :: rest) db =
      SrcStorage.processDue env rest (SrcStorage.delete_followup db f.id) := by
  simp only [SrcStorage.processDue, h]

theorem processDue_cons_policy (env : SrcStorage.SweepEnv)
    (f : SrcStorage.FollowupRow) (rest : List SrcStorage.FollowupRow)
    (db : SrcStorage.DB) (user : SrcStorage.User)
    (h : SrcStorage.get_user_by_id db f.user_id = some user)
    (hpol : (SrcStorage.can_send_to_user user env.cap).1 = false) :
    SrcStorage.processDue env (f :: rest) db =
      SrcStorage.processDue env rest (SrcStorage.delete_followup db f.id) := by
  simp only [SrcStorage.processDue, h, hpol, Bool.not_false, if_true]

theorem processDue_cons_rep (env : SrcStorage.SweepEnv)
    (f : SrcStorage.FollowupRow) (rest : List SrcStorage.FollowupRow)
    (db : SrcStorage.DB) (user : SrcStorage.User)
    (h : SrcStorage.get_user_by_id db f.user_id = some user)
    (hpol : (SrcStorage.can_send_to_user user env.cap).1 = true)
    (hrep : SrcPolicies.anti_repetition_ok
        (SrcStorage.get_recent_messages db user.id 20) env.text = false) :
    SrcStorage.processDue env (f :: rest) db =
      SrcStorage.processDue env rest (SrcStorage.delete_followup db f.id) := by
  simp only [SrcStorage.processDue, h, hpol, hrep, Bool.not_true, Bool.not_false,
    if_false, if_true]
  rfl

theorem processDue_cons_send (env : SrcStorage.SweepEnv)
    (f : SrcStorage.FollowupRow) (rest : List SrcStorage.FollowupRow)
    (db : SrcStorage.DB) (user : SrcStorage.User)
    (h : SrcStorage.get_user_by_id db f.user_id = some user)
    (hpol : (SrcStorage.can_send_to_user user env.cap).1 = true)
    (hrep : SrcPolicies.anti_repetition_ok
        (SrcStorage.get_recent_messages db user.id 20) env.text = true) :
    SrcStorage.processDue env (f :: rest) db =
      (f.id :: (SrcStorage.processDue env rest
          (SrcStorage.schedule_followup (SrcStorage.delete_followup
            (if env.sendOk f.id then
              SrcStorage.record_message db user.id "out" env.text env.now_iso
                env.today
             else db) f.id) user.id env.next_due "gentle_followup")).1,
        (SrcStorage.processDue env rest
          (SrcStorage.schedule_followup (SrcStorage.delete_followup
            (if env.sendOk f.id then
              SrcStorage.record_message db user.id "out" env.text env.now_iso
                env.today
             else db) f.id) user.id env.next_due "gentle_followup")).2) := by
  simp only [SrcStorage.processDue, h, hpol, hrep, Bool.not_true, if_false]
  rfl

theorem processDue_cons_send_fst (env : SrcStorage.SweepEnv)
    (f : SrcStorage.FollowupRow) (rest : List SrcStorage.FollowupRow)
    (db : SrcStorage.DB) (user : SrcStorage.User)
    (h : SrcStorage.get_user_by_id db f.user_id = some user)
    (hpol : (SrcStorage.can_send_to_user user env.cap).1 = true)
    (hrep : SrcPolicies.anti_repetition_ok
        (SrcStorage.get_recent_messages db user.id 20) env.text = true) :
    (SrcStorage.processDue env (f :: rest) db).1 =
      f.id :: (SrcStorage.processDue env rest
        (SrcStorage.schedule_followup (SrcStorage.delete_followup
          (if env.sendOk f.id then
            SrcStorage.record_message db user.id "out" env.text env.now_iso
              env.today
           else db) f.id) user.id env.next_due "gentle_followup")).1 := by
  rw [processDue_cons_send env f rest db user h hpol hrep]

theorem processDue_cons_send_snd (env : SrcStorage.SweepEnv)
    (f : SrcStorage.FollowupRow) (rest : List SrcStorage.FollowupRow)
    (db : SrcStorage.DB) (user : SrcStorage.User)
    (h : SrcStorage.get_user_by_id db f.user_id = some user)
    (hpol : (SrcStorage.can_send_to_user user env.cap).1 = true)
    (hrep : SrcPolicies.anti_repetition_ok
        (SrcStorage.get_recent_messages db user.id 20) env.text = true) :
    (SrcStorage.processDue env (f :: rest) db).2 =
      (SrcStorage.processDue env rest
        (SrcStorage.schedule_followup (SrcStorage.delete_followup
          (if env.sendOk f.id then
            SrcStorage.record_message db user.id "out" env.text env.now_iso
              env.today
           else db) f.id) user.id env.next_due "gentle_followup")).2 := by
  rw [processDue_cons_send env f rest db user h hpol hrep]

theorem send_base_followups (env : SrcStorage.SweepEnv)
    (f : SrcStorage.FollowupRow) (db : SrcStorage.DB) (user : SrcStorage.User) :
    (if env.sendOk f.id then
        SrcStorage.record_message db user.id "out" env.text env.now_iso env.today
      else db).followups = db.followups := by
  by_cases hs : env.sendOk f.id = true
  · rw [if_pos hs, record_message_followups]
  · rw [if_neg hs]

theorem send_base_next (env : SrcStorage.SweepEnv)
    (f : SrcStorage.FollowupRow) (db : SrcStorage.DB) (user : SrcStorage.User) :
    (if env.sendOk f.id then
        SrcStorage.record_message db user.id "out" env.text env.now_iso env.today
      else db).next_followup_id = db.next_followup_id := by
  by_cases hs : env.sendOk f.id = true
  · rw [if_pos hs, record_message_next_fu]
  · rw [if_neg hs]

theorem send_state_next (env : SrcStorage.SweepEnv)
    (f : SrcStorage.FollowupRow) (db : SrcStorage.DB) (user : SrcStorage.User) :
    (SrcStorage.schedule_followup (SrcStorage.delete_followup
        (if env.sendOk f.id then
          SrcStorage.record_message db user.id "out" env.text env.now_iso env.today
         else db) f.id) user.id env.next_due
      "gentle_followup").next_followup_id = db.next_followup_id + 1 := by
  show (if env.sendOk f.id then
      SrcStorage.record_message db user.id "out" env.text env.now_iso env.today
    else db).next_followup_id + 1 = db.next_followup_id + 1
  rw [send_base_next]

theorem send_state_fuwf (env : SrcStorage.SweepEnv)
    (f : SrcStorage.FollowupRow) (db : SrcStorage.DB) (user : SrcStorage.User)
    (h : SrcStorage.FuWF db) :
    SrcStorage.FuWF (SrcStorage.schedule_followup (SrcStorage.delete_followup
        (if env.sendOk f.id then
          SrcStorage.record_message db user.id "out" env.text env.now_iso env.today
         else db) f.id) user.id env.next_due "gentle_followup") := by
  apply fuwf_schedule
  apply fuwf_delete
  by_cases hs : env.sendOk f.id = true
  · rw [if_pos hs]
    exact fuwf_record db user.id "out" env.text env.now_iso env.today h
  · rw [if_neg hs]
    exact h

theorem send_state_absent (env : SrcStorage.SweepEnv)
    (f : SrcStorage.FollowupRow) (db : SrcStorage.DB) (user : SrcStorage.User)
    (i : Nat) (hi : i < db.next_followup_id)
    (h : i = f.id ∨ i ∉ db.followups.map (fun g => g.id)) :
    i ∉ (SrcStorage.schedule_followup (SrcStorage.delete_followup
        (if env.sendOk f.id then
          SrcStorage.record_message db user.id "out" env.text env.now_iso env.today
         else db) f.id) user.id env.next_due
      "gentle_followup").followups.map (fun g => g.id) := by
  set B := (if env.sendOk f.id then
      SrcStorage.record_message db user.id "out" env.text env.now_iso env.today
    else db) with hB
  have hBf : B.followups = db.followups := send_base_followups env f db user
  have hBn : B.next_followup_id = db.next_followup_id := send_base_next env f db user
  apply not_mem_ids_schedule
  · show i < B.next_followup_id
    omega
  · rcases h with rfl | h
    · exact not_mem_ids_delete_self B f.id
    · apply not_mem_ids_delete
      rw [hBf]
      exact h

theorem processDue_next_mono (env : SrcStorage.SweepEnv) :
    ∀ (l : List SrcStorage.FollowupRow) (db : SrcStorage.DB),
      db.next_followup_id ≤
        (SrcStorage.processDue env l db).2.next_followup_id := by
  intro l
  induction l with
  | nil => intro db; exact Nat.le_refl _
  | cons f rest ih =>
      intro db
      cases hget : SrcStorage.get_user_by_id db f.user_id with
      | none =>
          rw [processDue_cons_none env f rest db hget]
          exact ih (SrcStorage.delete_followup db f.id)
      | some user =>
          cases hpol : (SrcStorage.can_send_to_user user env.cap).1 with
          | false =>
              rw [processDue_cons_policy env f rest db user hget hpol]
              exact ih (SrcStorage.delete_followup db f.id)
          | true =>
              cases hrep : SrcPolicies.anti_repetition_ok
                  (SrcStorage.get_recent_messages db user.id 20) env.text with
              | false =>
                  rw [processDue_cons_rep env f rest db user hget hpol hrep]
                  exact ih (SrcStorage.delete_followup db f.id)
              | true =>
                  rw [processDue_cons_send_snd env f rest db user hget hpol hrep]
                  have hmono := ih (SrcStorage.schedule_followup
                    (SrcStorage.delete_followup
                      (if env.sendOk f.id then
                        SrcStorage.record_message db user.id "out" env.text
                          env.now_iso env.today
                       else db) f.id) user.id env.next_due "gentle_followup")
                  have hnext := send_state_next env f db user
                  omega

theorem processDue_fuwf (env : SrcStorage.SweepEnv) :
    ∀ (l : List SrcStorage.FollowupRow) (db : SrcStorage.DB),
      SrcStorage.FuWF db → SrcStorage.FuWF (SrcStorage.processDue env l db).2 := by
  intro l
  induction l with
  | nil => intro db h; exact h
  | cons f rest ih =>
      intro db h
      cases hget : SrcStorage.get_user_by_id db f.user_id with
      | none =>
          rw [processDue_cons_none env f rest db hget]
          exact ih _ (fuwf_delete db f.id h)
      | some user =>
          cases hpol : (SrcStorage.can_send_to_user user env.cap).1 with
          | false =>
              rw [processDue_cons_policy env f rest db user hget hpol]
              exact ih _ (fuwf_delete db f.id h)
          | true =>
              cases hrep : SrcPolicies.anti_repetition_ok
                  (SrcStorage.get_recent_messages db user.id 20) env.text with
              | false =>
                  rw [processDue_cons_rep env f rest db user hget hpol hrep]
                  exact ih _ (fuwf_delete db f.id h)
              | true =>
                  rw [processDue_cons_send_snd env f rest db user hget hpol hrep]
                  exact ih _ (send_state_fuwf env f db user h)

theorem processDue_preserves_absent (env : SrcStorage.SweepEnv) (i : Nat) :
    ∀ (l : List SrcStorage.FollowupRow) (db : SrcStorage.DB),
      i < db.next_followup_id → i ∉ db.followups.map (fun g => g.id) →
      i < (SrcStorage.processDue env l db).2.next_followup_id ∧
        i ∉ (SrcStorage.processDue env l db).2.followups.map (fun g => g.id) := by
  intro l
  induction l with
  | nil => intro db h1 h2; exact ⟨h1, h2⟩
  | cons f rest ih =>
      intro db h1 h2
      cases hget : SrcStorage.get_user_by_id db f.user_id with
      | none =>
          rw [processDue_cons_none env f rest db hget]
          exact ih _ h1 (not_mem_ids_delete db f.id i h2)
      | some user =>
          cases hpol : (SrcStorage.can_send_to_user user env.cap).1 with
          | false =>
              rw [processDue_cons_policy env f rest db user hget hpol]
              exact ih _ h1 (not_mem_ids_delete db f.id i h2)
          | true =>
              cases hrep : SrcPolicies.anti_repetition_ok
                  (SrcStorage.get_recent_messages db user.id 20) env.text with
              | false =>
                  rw [processDue_cons_rep env f rest db user hget hpol hrep]
                  exact ih _ h1 (not_mem_ids_delete db f.id i h2)
              | true =>
                  rw [processDue_cons_send_snd env f rest db user hget hpol hrep]
                  refine ih _ ?_ (send_state_absent env f db user i h1 (Or.inr h2))
                  have hnext := send_state_next env f db user
                  omega

theorem processDue_sends_sub (env : SrcStorage.SweepEnv) :
    ∀ (l : List SrcStorage.FollowupRow) (db : SrcStorage.DB) (x : Nat),
      x ∈ (SrcStorage.processDue env l db).1 → x ∈ l.map (fun g => g.id) := by
  intro l
  induction l with
  | nil => intro db x hx; simp [SrcStorage.processDue] at hx
  | cons f rest ih =>
      intro db x hx
      rw [List.map_cons]
      cases hget : SrcStorage.get_user_by_id db f.user_id with
      | none =>
          rw [processDue_cons_none env f rest db hget] at hx
          exact List.mem_cons_of_mem _ (ih _ x hx)
      | some user =>
          cases hpol : (SrcStorage.can_send_to_user user env.cap).1 with
          | false =>
              rw [processDue_cons_policy env f rest db user hget hpol] at hx
              exact List.mem_cons_of_mem _ (ih _ x hx)
          | true =>
              cases hrep : SrcPolicies.anti_repetition_ok
                  (SrcStorage.get_recent_messages db user.id 20) env.text with
              | false =>
                  rw [processDue_cons_rep env f rest db user hget hpol hrep] at hx
                  exact List.mem_cons_of_mem _ (ih _ x hx)
              | true =>
                  rw [processDue_cons_send_fst env f rest db user hget hpol hrep] at hx
                  rcases List.mem_cons.1 hx with rfl | hx'
                  · exact List.mem_cons_self _ _
                  · exact List.mem_cons_of_mem _ (ih _ x hx')

theorem processDue_count_le (env : SrcStorage.SweepEnv) (i : Nat) :
    ∀ (l : List SrcStorage.FollowupRow) (db : SrcStorage.DB),
      (SrcStorage.processDue env l db).1.count i ≤
        (l.map (fun g => g.id)).count i := by
  intro l
  induction l with
  | nil => intro db; simp [SrcStorage.processDue]
  | cons f rest ih =>
      intro db
      rw [List.map_cons, List.count_cons]
      cases hget : SrcStorage.get_user_by_id db f.user_id with
      | none =>
          rw [processDue_cons_none env f rest db hget]
          have := ih (SrcStorage.delete_followup db f.id)
          omega
      | some user =>
          cases hpol : (SrcStorage.can_send_to_user user env.cap).1 with
          | false =>
              rw [processDue_cons_policy env f rest db user hget hpol]
              have := ih (SrcStorage.delete_followup db f.id)
              omega
          | true =>
              cases hrep : SrcPolicies.anti_repetition_ok
                  (SrcStorage.get_recent_messages db user.id 20) env.text with
              | false =>
                  rw [processDue_cons_rep env f rest db user hget hpol hrep]
                  have := ih (SrcStorage.delete_followup db f.id)
                  omega
              | true =>
                  rw [processDue_cons_send_fst env f rest db user hget hpol hrep]
                  rw [List.count_cons]
                  have := ih (SrcStorage.schedule_followup
                    (SrcStorage.delete_followup
                      (if env.sendOk f.id then
                        SrcStorage.record_message db user.id "out" env.text
                          env.now_iso env.today
                       else db) f.id) user.id env.next_due "gentle_followup")
                  omega

theorem processDue_removes (env : SrcStorage.SweepEnv) (i : Nat) :
    ∀ (l : List SrcStorage.FollowupRow) (db : SrcStorage.DB),
      (∀ f ∈ l, f.id < db.next_followup_id) →
      i ∈ l.map (fun g => g.id) →
      i < (SrcStorage.processDue env l db).2.next_followup_id ∧
        i ∉ (SrcStorage.processDue env l db).2.followups.map (fun g => g.id) := by
  intro l
  induction l with
  | nil => intro db _ hmem; simp at hmem
  | cons f rest ih =>
      intro db hlt hmem
      have hflt : f.id < db.next_followup_id := hlt f (List.mem_cons_self f rest)
      have hrlt : ∀ g ∈ rest, g.id < db.next_followup_id :=
        fun g hg => hlt g (List.mem_cons_of_mem f hg)
      rw [List.map_cons] at hmem
      cases hget : SrcStorage.get_user_by_id db f.user_id with
      | none =>
          rw [processDue_cons_none env f rest db hget]
          rcases List.mem_cons.1 hmem with rfl | hmem'
          · exact processDue_preserves_absent env f.id rest _ hflt
              (not_mem_ids_delete_self db f.id)
          · exact ih (SrcStorage.delete_followup db f.id) hrlt hmem'
      | some user =>
          cases hpol : (SrcStorage.can_send_to_user user env.cap).1 with
          | false =>
              rw [processDue_cons_policy env f rest db user hget hpol]
              rcases List.mem_cons.1 hmem with rfl | hmem'
              · exact processDue_preserves_absent env f.id rest _ hflt
                  (not_mem_ids_delete_self db f.id)
              · exact ih (SrcStorage.delete_followup db f.id) hrlt hmem'
          | true =>
              cases hrep : SrcPolicies.anti_repetition_ok
                  (SrcStorage.get_recent_messages db user.id 20) env.text with
              | false =>
                  rw [processDue_cons_rep env f rest db user hget hpol hrep]
                  rcases List.mem_cons.1 hmem with rfl | hmem'
                  · exact processDue_preserves_absent env f.id rest _ hflt
                      (not_mem_ids_delete_self db f.id)
                  · exact ih (SrcStorage.delete_followup db f.id) hrlt hmem'
              | true =>
                  rw [processDue_cons_send_snd env f rest db user hget hpol hrep]
                  have hnext := send_state_next env f db user
                  rcases List.mem_cons.1 hmem with rfl | hmem'
                  · exact processDue_preserves_absent env f.id rest _
                      (by omega)
                      (send_state_absent env f db user f.id hflt (Or.inl rfl))
                  · refine ih _ (fun g hg => ?_) hmem'
                    have := hrlt g hg
                    omega

theorem job_count_le_one (env : SrcStorage.SweepEnv) (db : SrcStorage.DB)
    (i : Nat) (h : SrcStorage.FuWF db) :
    (SrcStorage.check_followups_job env db).1.count i ≤ 1 := by
  have h1 := processDue_count_le env i (SrcStorage.due_followups db env.now) db
  have hsub : ((SrcStorage.due_followups db env.now).map (fun g => g.id)).Sublist
      (db.followups.map (fun g => g.id)) :=
    (List.filter_sublist _).map _
  have h2 := hsub.count_le i
  have h3 := List.nodup_iff_count_le_one.1 h.2 i
  show (SrcStorage.processDue env (SrcStorage.due_followups db env.now) db).1.count
    i ≤ 1
  omega

theorem job_removes (env : SrcStorage.SweepEnv) (db : SrcStorage.DB) (i : Nat)
    (hwf : SrcStorage.FuWF db)
    (hi : i ∈ (SrcStorage.due_followups db env.now).map (fun g => g.id)) :
    i ∉ (SrcStorage.check_followups_job env db).2.followups.map (fun g => g.id) :=
  (processDue_removes env i (SrcStorage.due_followups db env.now) db
    (fun f hf => hwf.1 f (List.mem_of_mem_filter hf)) hi).2

theorem src_dead (i : Nat) :
    ∀ (envs : List SrcStorage.SweepEnv) (db : SrcStorage.DB),
      SrcStorage.FuWF db → i < db.next_followup_id →
      i ∉ db.followups.map (fun g => g.id) →
      (SrcStorage.runJobs envs db).count i = 0 := by
  intro envs
  induction envs with
  | nil => intro db _ _ _; simp [SrcStorage.runJobs]
  | cons e es ih =>
      intro db hwf hlt habs
      rw [SrcStorage.runJobs, List.count_append]
      have hnot : i ∉ (SrcStorage.check_followups_job e db).1 := by
        intro hmem
        have hx := processDue_sends_sub e (SrcStorage.due_followups db e.now) db
          i hmem
        obtain ⟨f, hf, hfid⟩ := List.mem_map.1 hx
        exact habs (List.mem_map.2 ⟨f, List.mem_of_mem_filter hf, hfid⟩)
      have h1 : (SrcStorage.check_followups_job e db).1.count i = 0 :=
        List.count_eq_zero.2 hnot
      have hpres := processDue_preserves_absent e i
        (SrcStorage.due_followups db e.now) db hlt habs
      have h2 := ih (SrcStorage.check_followups_job e db).2
        (processDue_fuwf e _ db hwf) hpres.1 hpres.2
      omega

theorem src_runJobs_count_le_one :
    ∀ (envs : List SrcStorage.SweepEnv) (db : SrcStorage.DB) (i : Nat),
      SrcStorage.FuWF db → (SrcStorage.runJobs envs db).count i ≤ 1 := by
  intro envs
  induction envs with
  | nil => intro db i _; simp [SrcStorage.runJobs]
  | cons e es ih =>
      intro db i hwf
      rw [SrcStorage.runJobs, List.count_append]
      by_cases hi : i ∈ (SrcStorage.check_followups_job e db).1
      · have h1 := job_count_le_one e db i hwf
        have hx := processDue_sends_sub e (SrcStorage.due_followups db e.now) db
          i hi
        have hdue : ∀ f ∈ SrcStorage.due_followups db e.now,
            f.id < db.next_followup_id :=
          fun f hf => hwf.1 f (List.mem_of_mem_filter hf)
        have hrem := processDue_removes e i (SrcStorage.due_followups db e.now)
          db hdue hx
        have h0 := src_dead i es (SrcStorage.check_followups_job e db).2
          (processDue_fuwf e _ db hwf) hrem.1 hrem.2
        omega
      · have h1 : (SrcStorage.check_followups_job e db).1.count i = 0 :=
          List.count_eq_zero.2 hi
        have h2 := ih (SrcStorage.check_followups_job e db).2 i
          (processDue_fuwf e _ db hwf)
        omega

/-- After `delete_user`, no row answers to the deleted user's
`(platform, platform_user_id)` pair (uniqueness of the pair). -/
theorem find_after_delete_none (db : SrcStorage.DB) (u : SrcStorage.User)
    (p puid : String) (hwf : SrcStorage.DBWF db) (hu : u ∈ db.users)
    (hp : u.platform = p) (hpu : u.platform_user_id = puid) :
    SrcStorage.get_user_by_platform_id (SrcStorage.delete_user db u.id) p puid =
      none := by
  apply List.find?_eq_none.2
  intro v hv hvm
  have hvmem := List.mem_filter.1 hv
  have hvin : v ∈ db.users := hvmem.1
  have hvid : v.id ≠ u.id := by simpa using hvmem.2
  have hkeys : SrcStorage.userKey v = SrcStorage.userKey u := by
    simp only [SrcStorage.userMatches, Bool.and_eq_true, beq_iff_eq] at hvm
    simp [SrcStorage.userKey, hvm.1, hvm.2, hp, hpu]
  have hvu := List.inj_on_of_nodup_map hwf.2.1 hvin hu hkeys
  exact hvid (by rw [hvu])

/-! ### Claim theorems -/

/-- **C1.** On one calendar date a user's daily message count equals
`min N cap`: after `n` gated send attempts from the fresh (absent) cell
the count is `min n cap`; a cell already at the cap makes
`check_daily_limit` (and hence the next send attempt) fail; even raw
`increment_daily_limit` calls clamp the count at `min n cap` for any
positive cap; `can_send_to_user` answers `(false, "daily_limit")` at the
cap; and `record_message`'s lazy rollover starts a new date at count 1
(reset to 0, then the send is counted), stamping the new date. -/
theorem daily_count_min_of_cap :
    (∀ cap n : Nat, (BotStore.attempts cap n).getD 0 = min n cap) ∧
    (∀ (cap : Nat) (cell : Option Nat), cell.getD 0 = cap →
        BotStore.check_daily_limit cap cell = false ∧
        (BotStore.attempt_send cap cell).1 = false) ∧
    (∀ cap n : Nat, 1 ≤ cap → (BotStore.increments cap n).getD 0 = min n cap) ∧
    (∀ (u : SrcStorage.User) (maxDaily : Nat), u.paused = false →
        u.consent = true → maxDaily ≤ u.daily_msg_count →
        SrcStorage.can_send_to_user u maxDaily = (false, "daily_limit")) ∧
    (∀ (u : SrcStorage.User) (today now_iso : String),
        ¬(u.last_reset_date = some today) →
        (SrcStorage.bump_daily u today now_iso).daily_msg_count = 1 ∧
        (SrcStorage.bump_daily u today now_iso).last_reset_date = some today) := by
  refine ⟨attempts_getD, ?_, increments_getD, ?_, ?_⟩
  · intro cap cell h
    have hch : BotStore.check_daily_limit cap cell = false := by
      simp [BotStore.check_daily_limit, h]
    exact ⟨hch, by simp [BotStore.attempt_send, hch]⟩
  · intro u maxDaily hp hc hcap
    simp [SrcStorage.can_send_to_user, hp, hc, hcap]
  · intro u today now_iso h
    have hb : (u.last_reset_date == some today) = false := by
      simpa using h
    constructor
    · simp [SrcStorage.bump_daily, hb]
    · simp [SrcStorage.bump_daily]

/-- Witness for the C1 theorem at cap 5 (7 attempts), a cell at its cap,
2 raw increments, a user at the cap of 3, and a user entering a new
date. -/
theorem daily_count_min_of_cap_witness :
    (BotStore.attempts 5 7).getD 0 = min 7 5 ∧
      (BotStore.check_daily_limit 5 (some 5) = false ∧
        (BotStore.attempt_send 5 (some 5)).1 = false) ∧
      (BotStore.increments 5 2).getD 0 = min 2 5 ∧
      SrcStorage.can_send_to_user ⟨0, "tg", "42", none, true, false, none, 3, none⟩ 3 =
        (false, "daily_limit") ∧
      ((SrcStorage.bump_daily
          ⟨0, "tg", "42", none, true, false, none, 3, some "2026-10-11"⟩
          "2026-10-12" "T12").daily_msg_count = 1 ∧
        (SrcStorage.bump_daily
          ⟨0, "tg", "42", none, true, false, none, 3, some "2026-10-11"⟩
          "2026-10-12" "T12").last_reset_date = some "2026-10-12") :=
  ⟨daily_count_min_of_cap.1 5 7,
   daily_count_min_of_cap.2.1 5 (some 5) (by decide),
   daily_count_min_of_cap.2.2.1 5 2 (by decide),
   daily_count_min_of_cap.2.2.2.1 ⟨0, "tg", "42", none, true, false, none, 3, none⟩ 3
     (by decide) (by decide) (by decide),
   daily_count_min_of_cap.2.2.2.2
     ⟨0, "tg", "42", none, true, false, none, 3, some "2026-10-11"⟩
     "2026-10-12" "T12" (by decide)⟩

/-- **C3.** For every quiet-hours configuration with start and end hours
in 0..23 and every moment `t`, `is_quiet (next_allowed_time t)` is false,
and whenever `is_quiet t` is false, `next_allowed_time t = t` — for both
the same-day and the midnight-wrapping window shape. -/
theorem quiet_hours_next_allowed_consistent (c : Cadence) (m : Moment)
    (hs : c.quiet_start ≤ 23) (he : c.quiet_end ≤ 23) :
    c.is_quiet (c.next_allowed_time m) = false ∧
      (c.is_quiet m = false → c.next_allowed_time m = m) := by
  constructor
  · cases hq : c.is_quiet m with
    | false => simp [Cadence.next_allowed_time, hq]
    | true =>
        by_cases hle : c.quiet_start ≤ c.quiet_end
        · have hn : c.next_allowed_time m = ⟨m.day, c.quiet_end, 0⟩ := by
            simp [Cadence.next_allowed_time, hq, hle]
          rw [hn]
          simp [Cadence.is_quiet, hle]
        · by_cases hlt : m.hour < c.quiet_end
          · have hn : c.next_allowed_time m = ⟨m.day, c.quiet_end, 0⟩ := by
              simp [Cadence.next_allowed_time, hq, hle, hlt]
            rw [hn]
            simp [Cadence.is_quiet, hle]
          · have hn : c.next_allowed_time m = ⟨m.day + 1, c.quiet_end, 0⟩ := by
              simp [Cadence.next_allowed_time, hq, hle, hlt]
            rw [hn]
            simp [Cadence.is_quiet, hle]
  · intro hq
    simp [Cadence.next_allowed_time, hq]

/-- Witness for the C3 theorem: the default configuration (quiet 22–8)
at 23:15, a quiet moment in the wrapped window. -/
theorem quiet_hours_next_allowed_consistent_witness :
    ((22 : Nat) ≤ 23 ∧ (8 : Nat) ≤ 23) ∧
      (Cadence.is_quiet ⟨22, 8⟩ (Cadence.next_allowed_time ⟨22, 8⟩ ⟨0, 23, 15⟩) = false ∧
        (Cadence.is_quiet ⟨22, 8⟩ ⟨0, 23, 15⟩ = false →
          Cadence.next_allowed_time ⟨22, 8⟩ ⟨0, 23, 15⟩ = ⟨0, 23, 15⟩)) :=
  ⟨⟨by decide, by decide⟩,
   quiet_hours_next_allowed_consistent ⟨22, 8⟩ ⟨0, 23, 15⟩ (by decide) (by decide)⟩

/-- **C2 (counterexample).** The whitespace-only text `" "` is *not*
reported unsafe by `ContentModerator.check_message_safety`: the source
returns `(True, "empty_message", None)` for empty or whitespace-only
input, so the claim fails on it. -/
theorem empty_text_counterexample :
    Moderation.check_message_safety " " = (true, "empty_message", none) ∧
      (" " : String) ≠ "" := by
  constructor
  · decide
  · decide

/-- **C2 (amended).** For every empty or whitespace-only text,
`ContentFilter.check_message` rejects it with reason «Пустое сообщение»,
while `ContentModerator.check_message_safety` returns *safe* with reason
`empty_message` (it does not classify empty text as unsafe). -/
theorem empty_text_classification (cfg : ContentFilter.FilterConfig)
    (text : String) (h : pyStrip text = "") :
    ContentFilter.check_message cfg text = (false, "Пустое сообщение") ∧
      Moderation.check_message_safety text = (true, "empty_message", none) := by
  have hb : (pyStrip text == "") = true := by simp [h]
  constructor
  · simp [ContentFilter.check_message, hb]
  · simp [Moderation.check_message_safety, hb]

/-- Witness for the C2 amended theorem at `" "`. -/
theorem empty_text_classification_witness :
    pyStrip " " = "" ∧
      (ContentFilter.check_message ⟨[], [], []⟩ " " = (false, "Пустое сообщение") ∧
        Moderation.check_message_safety " " = (true, "empty_message", none)) :=
  ⟨by decide, empty_text_classification ⟨[], [], []⟩ " " (by decide)⟩

/-- **C4.** At most one outbound message is ever sent from a follow-up
record.  In the `_check_followups_job` sweep (src model): over any run of
periodic ticks each follow-up id is sent at most once, and every record
in a tick's due snapshot is gone from the store after that tick (deleted
in every branch).  In the `process_follow_ups` / `_follow_up_worker`
sweep (bot_tg model): over any run each id is sent at most once, and a
record from which a send happened is marked `sent` in the resulting
store, which later sweeps skip. -/
theorem follow_up_sent_at_most_once :
    (∀ (envs : List SrcStorage.SweepEnv) (db : SrcStorage.DB) (i : Nat),
        SrcStorage.FuWF db → (SrcStorage.runJobs envs db).count i ≤ 1) ∧
    (∀ (env : SrcStorage.SweepEnv) (db : SrcStorage.DB) (i : Nat),
        SrcStorage.FuWF db →
        i ∈ (SrcStorage.due_followups db env.now).map (fun g => g.id) →
        i ∉ (SrcStorage.check_followups_job env db).2.followups.map
          (fun g => g.id)) ∧
    (∀ (envs : List (Nat → Bool)) (fus : List BotStore.FollowUpRow) (i : Nat),
        (fus.map (fun f => f.id)).Nodup →
        (BotStore.runSweeps envs fus).count i ≤ 1) ∧
    (∀ (skip : Nat → Bool) (fus : List BotStore.FollowUpRow) (i : Nat)
        (f : BotStore.FollowUpRow),
        i ∈ (BotStore.sweep skip fus).1 → f ∈ (BotStore.sweep skip fus).2 →
        f.id = i → f.status = "sent") :=
  ⟨src_runJobs_count_le_one,
   fun env db i hwf hi => job_removes env db i hwf hi,
   bot_runSweeps_count_le_one,
   fun skip fus i f hi hf hid =>
     foldl_mark_sent_of_mem i (BotStore.process_follow_ups skip fus) fus hi f hf hid⟩

/-- Witness for the C4 theorem on the example store (one due follow-up,
id 0) and a one-row pending table (id 1). -/
theorem follow_up_sent_at_most_once_witness :
    (SrcStorage.FuWF SrcStorage.exDB ∧
      (SrcStorage.runJobs [SrcStorage.exEnv] SrcStorage.exDB).count 0 ≤ 1) ∧
    ((0 ∈ (SrcStorage.due_followups SrcStorage.exDB
        SrcStorage.exEnv.now).map (fun g => g.id)) ∧
      0 ∉ (SrcStorage.check_followups_job SrcStorage.exEnv
        SrcStorage.exDB).2.followups.map (fun g => g.id)) ∧
    ((([⟨1, 7, "pending"⟩] : List BotStore.FollowUpRow).map
        (fun f => f.id)).Nodup ∧
      (BotStore.runSweeps [fun _ => false] [⟨1, 7, "pending"⟩]).count 1 ≤ 1) ∧
    ((1 ∈ (BotStore.sweep (fun _ => false) [⟨1, 7, "pending"⟩]).1) ∧
      (⟨1, 7, "sent"⟩ : BotStore.FollowUpRow) ∈
        (BotStore.sweep (fun _ => false) [⟨1, 7, "pending"⟩]).2 ∧
      (BotStore.FollowUpRow.mk 1 7 "sent").status = "sent") :=
  ⟨⟨⟨by decide, by decide⟩,
    follow_up_sent_at_most_once.1 [SrcStorage.exEnv] SrcStorage.exDB 0
      ⟨by decide, by decide⟩⟩,
   ⟨by decide,
    follow_up_sent_at_most_once.2.1 SrcStorage.exEnv SrcStorage.exDB 0
      ⟨by decide, by decide⟩ (by decide)⟩,
   ⟨by decide,
    follow_up_sent_at_most_once.2.2.1 [fun _ => false] [⟨1, 7, "pending"⟩] 1
      (by decide)⟩,
   ⟨by decide, by decide,
    follow_up_sent_at_most_once.2.2.2 (fun _ => false) [⟨1, 7, "pending"⟩] 1
      ⟨1, 7, "sent"⟩ (by decide) (by decide) (by decide)⟩⟩

/-- **C5 (code bug).** `update_group_activity` records a reply to author
2 in chat 1 on day 12 at minute 600; `check_group_cooldown` (default 30
cooldown minutes) still blocks at minute 620, but at minute 631 — the
same calendar day — it already returns `true`: the per-day cap never
fires because the stored TEXT date is compared with a `datetime.date`
object and Python cross-type `==` is always `False`. -/
theorem group_daily_cap_never_fires :
    BotStore.check_group_cooldown 30 12 631
        (BotStore.update_group_activity 12 600 (fun _ _ => none) 1 2) 1 2 = true ∧
      BotStore.check_group_cooldown 30 12 620
        (BotStore.update_group_activity 12 600 (fun _ _ => none) 1 2) 1 2 = false := by
  constructor
  · decide
  · decide

/-- **C8 (counterexample).** The safe group message `"Как дела?"` ends
with `?` and is shorter than the configured minimum length, yet
`ContentModerator.filter_group_message` rejects it with the default
keywords: that gate has no question-mark rule. -/
theorem short_question_group_counterexample :
    Moderation.filter_group_message "Как дела?" Moderation.group_keywords_list
        Moderation.min_group_message_length = false ∧
      Policies.pyEndsWith (pyStrip "Как дела?") "?" = true ∧
      (pyStrip "Как дела?").length < Moderation.min_group_message_length ∧
      (Moderation.check_message_safety "Как дела?").1 = true := by
  refine ⟨by decide, by decide, by decide, by decide⟩

/-- **C8 (amended).** `PolicyManager.should_participate_in_group` does
accept every non-blank message whose stripped text ends in `?`,
whatever the keyword list and however the random draw falls — there the
question-mark rule overrides the minimum-length rule; the parallel
`ContentModerator.filter_group_message` gate accepts only on a keyword
hit or the length threshold (see the counterexample). -/
theorem short_question_participation (message : String)
    (keywords : List String) (luck : Bool) (h1 : ¬(pyStrip message = ""))
    (h2 : Policies.pyEndsWith (pyStrip message) "?" = true) :
    Policies.should_participate_in_group message keywords luck = true := by
  have hm : ¬(message = "") := by
    intro h
    subst h
    exact h1 rfl
  have hc : (message == "" || pyStrip message == "") = false := by
    simp [hm, h1]
  unfold Policies.should_participate_in_group
  rw [hc]
  by_cases hk : (keywords.any (fun k => pyContains (pyLower message) (pyLower k))) = true
  · simp [hk]
  · simp [hk, h2]

/-- **C6.** A text matching a configured forbidden-topic pattern is
classified `forbidden_topic` even when its spam signals reach the spam
threshold: in `check_message_safety` the forbidden-topic check (priority
2) runs before the aggregate spam score (priority 4), and likewise in
`ContentFilter.check_message` the forbidden-keyword check precedes the
spam check. -/
theorem forbidden_topic_beats_spam :
    (∀ text : String,
        Moderation.forbidden_topic_patterns.any
            (Moderation.matchesTopicPattern (wordTokens (pyLower text))) = true →
        2 ≤ Moderation.spam_score (pyLower text) (wordTokens (pyLower text)) →
        Moderation.check_message_safety text =
          (false, "forbidden_topic",
            some "Извините, но я не могу обсуждать эту тему.")) ∧
    (∀ (cfg : ContentFilter.FilterConfig) (text kw : String),
        ContentFilter.findKeyword cfg.forbidden_keywords (pyLower text) = some kw →
        ContentFilter.check_spam text = true →
        ¬(pyStrip text = "") →
        ContentFilter.check_message cfg text = (false, "Запрещенная тема: " ++ kw)) := by
  constructor
  · intro text hf hs
    obtain ⟨p, hp, hmp⟩ := List.any_eq_true.1 hf
    obtain ⟨t, ht, _⟩ := List.any_eq_true.1 hmp
    obtain ⟨htne, htkeep, htsub⟩ := splitBy_mem ht
    obtain ⟨c, hc⟩ := List.exists_mem_of_ne_nil _ htne
    obtain ⟨c0, hc0, hcc⟩ := List.mem_map.1 (htsub c hc)
    have hws : isWs c0 = false := by
      by_cases h : isWs c0 = true
      · exfalso
        have hlw := isWs_lower_not_word h
        rw [hcc, htkeep c hc] at hlw
        exact Bool.noConfusion hlw
      · simpa using h
    have hne : ¬(pyStrip text = "") := pyStrip_ne_empty hc0 hws
    have hne2 : ¬(text = "") := by
      intro h
      subst h
      simp at hc0
    have hcond : (text == "" || pyStrip text == "") = false := by
      simp [hne, hne2]
    simp [Moderation.check_message_safety, hcond, hf]
    decide
  · intro cfg text kw hkw _ hne
    have hne2 : ¬(text = "") := by
      intro h
      subst h
      exact hne rfl
    have hcond : (text == "" || pyStrip text == "") = false := by
      simp [hne, hne2]
    simp [ContentFilter.check_message, hcond, hkw]

/-- Witness for the C6 theorem: `"политика купить репост"` (a forbidden
topic plus two spam patterns) through the moderator, and
`"Политика!!! купить"` through the content filter configured with the
topic «политика». -/
theorem forbidden_topic_beats_spam_witness :
    (Moderation.forbidden_topic_patterns.any
        (Moderation.matchesTopicPattern
          (wordTokens (pyLower "политика купить репост"))) = true ∧
      2 ≤ Moderation.spam_score (pyLower "политика купить репост")
          (wordTokens (pyLower "политика купить репост")) ∧
      Moderation.check_message_safety "политика купить репост" =
        (false, "forbidden_topic",
          some "Извините, но я не могу обсуждать эту тему.")) ∧
    (ContentFilter.findKeyword ["политика"] (pyLower "Политика!!! купить") =
        some "политика" ∧
      ContentFilter.check_spam "Политика!!! купить" = true ∧
      ContentFilter.check_message ⟨["политика"], [], []⟩ "Политика!!! купить" =
        (false, "Запрещенная тема: " ++ "политика")) :=
  ⟨⟨by decide, by decide,
    forbidden_topic_beats_spam.1 "политика купить репост" (by decide) (by decide)⟩,
   ⟨by decide, by decide,
    forbidden_topic_beats_spam.2 ⟨["политика"], [], []⟩ "Политика!!! купить"
      "политика" (by decide) (by decide) (by decide)⟩⟩

/-- **C7 (counterexample).** `" "` is a non-empty text, yet
`anti_repetition_ok` does *not* flag it against an identical recent
outbound message: its word set is empty, so the similarity is 0. -/
theorem repetition_whitespace_counterexample :
    SrcPolicies.anti_repetition_ok [("out", " ", "")] " " = true ∧
      (" " : String) ≠ "" := by
  have hw : pyWords (SrcPolicies.normalize " ") = [] := by decide
  have hsim : SrcPolicies.similarity (SrcPolicies.normalize " ")
      (SrcPolicies.normalize " ") = 0 := similarity_zero_of_no_words (Or.inl hw)
  constructor
  · simp [SrcPolicies.anti_repetition_ok, hsim]
    norm_num
  · decide

/-- **C7 (amended).** A candidate identical to a recent same-direction
message is flagged as repetitive whenever its word set is non-empty
(rather than for every non-empty string); `anti_repetition_ok` accepts
against an empty history; and both Jaccard implementations return 0
whenever either word set is empty. -/
theorem repetition_detection :
    (∀ x ts : String, pyWords (pyLower x) ≠ [] →
        SrcPolicies.anti_repetition_ok [("out", x, ts)] x = false) ∧
    (∀ x : String, SrcPolicies.anti_repetition_ok [] x = true) ∧
    (∀ a b : String, pyWords a = [] ∨ pyWords b = [] →
        SrcPolicies.similarity a b = 0) ∧
    (∀ a b : String,
        pyWords (pyLower a) = [] ∨ pyWords (pyLower b) = [] →
        SrcPolicies.simple_similarity a b = 0) := by
  refine ⟨?_, ?_, ?_, ?_⟩
  · intro x ts hne
    have h1 : pyWords (SrcPolicies.normalize x) ≠ [] := normalize_words_ne_nil hne
    have hsim : SrcPolicies.similarity (SrcPolicies.normalize x)
        (SrcPolicies.normalize x) = 1 := similarity_self h1
    simp [SrcPolicies.anti_repetition_ok, hsim]
    norm_num
  · intro x
    rfl
  · intro a b h
    exact similarity_zero_of_no_words h
  · intro a b h
    exact simple_similarity_zero_of_no_words h

/-- Witness for the C7 amended theorem on concrete texts. -/
theorem repetition_detection_witness :
    (pyWords (pyLower "привет мир") ≠ [] ∧
      SrcPolicies.anti_repetition_ok [("out", "привет мир", "")] "привет мир" = false) ∧
    SrcPolicies.anti_repetition_ok [] "привет" = true ∧
    (pyWords " " = [] ∧ SrcPolicies.similarity " " "x" = 0) ∧
    SrcPolicies.simple_similarity "  " "y" = 0 :=
  ⟨⟨by decide, repetition_detection.1 "привет мир" "" (by decide)⟩,
   repetition_detection.2.1 "привет",
   ⟨by decide, repetition_detection.2.2.1 " " "x" (Or.inl (by decide))⟩,
   repetition_detection.2.2.2 "  " "y" (Or.inl (by decide))⟩

/-- **C10.** `upsert_user` on an already-existing
`(platform, platform_user_id)` pair changes only the `username` of that
row: the returned record keeps the previous `id`, `consent`, `paused`,
`daily_msg_count`, `last_reset_date` and `last_contact_at`; every
non-matching row survives unchanged; the table size is unchanged; and
exactly one row for the pair remains. -/
theorem upsert_existing_updates_only_username (db : SrcStorage.DB)
    (p puid : String) (uname : Option String) (r0 : SrcStorage.User)
    (hwf : SrcStorage.DBWF db)
    (h : SrcStorage.get_user_by_platform_id db p puid = some r0) :
    (SrcStorage.upsert_user db p puid uname).1.id = r0.id ∧
    (SrcStorage.upsert_user db p puid uname).1.username = uname ∧
    (SrcStorage.upsert_user db p puid uname).1.consent = r0.consent ∧
    (SrcStorage.upsert_user db p puid uname).1.paused = r0.paused ∧
    (SrcStorage.upsert_user db p puid uname).1.daily_msg_count = r0.daily_msg_count ∧
    (SrcStorage.upsert_user db p puid uname).1.last_reset_date = r0.last_reset_date ∧
    (SrcStorage.upsert_user db p puid uname).1.last_contact_at = r0.last_contact_at ∧
    (SrcStorage.upsert_user db p puid uname).2.users.length = db.users.length ∧
    (∀ v ∈ db.users, SrcStorage.userMatches p puid v = false →
        v ∈ (SrcStorage.upsert_user db p puid uname).2.users) ∧
    (SrcStorage.upsert_user db p puid uname).2.users.countP
        (SrcStorage.userMatches p puid) = 1 := by
  have hr0 : r0 ∈ db.users := List.mem_of_find?_eq_some h
  have hm : SrcStorage.userMatches p puid r0 = true := List.find?_some h
  have hrw : SrcStorage.upsert_user db p puid uname =
      ({r0 with username := uname},
       {db with users := db.users.map (fun v =>
          if SrcStorage.userMatches p puid v then {v with username := uname}
          else v)}) := by
    rw [SrcStorage.upsert_user, h]
  rw [hrw]
  refine ⟨rfl, rfl, rfl, rfl, rfl, rfl, rfl, by simp, ?_, ?_⟩
  · intro v hv hnm
    exact List.mem_map.2 ⟨v, hv, by simp [hnm]⟩
  · have hpt : ∀ v ∈ db.users,
        SrcStorage.userMatches p puid
            (if SrcStorage.userMatches p puid v then {v with username := uname}
             else v) =
          SrcStorage.userMatches p puid v := by
      intro v _
      by_cases hv : SrcStorage.userMatches p puid v = true
      · rw [if_pos hv, hv]
        exact hv
      · rw [if_neg hv]
    calc (db.users.map (fun v =>
            if SrcStorage.userMatches p puid v then {v with username := uname}
            else v)).countP (SrcStorage.userMatches p puid)
        = db.users.countP (SrcStorage.userMatches p puid) := by
          rw [List.countP_map]
          refine List.countP_congr (fun v hv => ?_)
          simp only [Function.comp_apply]
          rw [hpt v hv]
      _ = 1 := countP_userMatches_eq_one hwf.2.1 hr0 hm

/-- **C9.** After a forget command deletes a user's record (cascading to
messages and follow-ups), a get-or-create for the same
`(platform, platform_user_id)` returns a fresh record carrying only
default values — zero daily count, no consent, not paused — and the new
record owns no message history and no (pending or other) follow-ups. -/
theorem forget_then_recreate_fresh (db : SrcStorage.DB) (u : SrcStorage.User)
    (p puid : String) (uname : Option String) (now : Nat)
    (hwf : SrcStorage.DBWF db) (hu : u ∈ db.users)
    (hp : u.platform = p) (hpu : u.platform_user_id = puid) :
    (SrcStorage.upsert_user (SrcStorage.delete_user db u.id) p puid
        uname).1.daily_msg_count = 0 ∧
    (SrcStorage.upsert_user (SrcStorage.delete_user db u.id) p puid
        uname).1.consent = false ∧
    (SrcStorage.upsert_user (SrcStorage.delete_user db u.id) p puid
        uname).1.paused = false ∧
    SrcStorage.get_recent_messages
        (SrcStorage.upsert_user (SrcStorage.delete_user db u.id) p puid uname).2
        (SrcStorage.upsert_user (SrcStorage.delete_user db u.id) p puid uname).1.id
        20 = [] ∧
    (SrcStorage.upsert_user (SrcStorage.delete_user db u.id) p puid
          uname).2.followups.filter (fun f =>
        f.user_id ==
          (SrcStorage.upsert_user (SrcStorage.delete_user db u.id) p puid
            uname).1.id) = [] ∧
    (SrcStorage.due_followups
          (SrcStorage.upsert_user (SrcStorage.delete_user db u.id) p puid uname).2
          now).filter (fun f =>
        f.user_id ==
          (SrcStorage.upsert_user (SrcStorage.delete_user db u.id) p puid
            uname).1.id) = [] := by
  have hnone := find_after_delete_none db u p puid hwf hu hp hpu
  have hrw : SrcStorage.upsert_user (SrcStorage.delete_user db u.id) p puid uname =
      (SrcStorage.defaultUser db.next_user_id p puid uname,
       {SrcStorage.delete_user db u.id with
          users := (SrcStorage.delete_user db u.id).users ++
            [SrcStorage.defaultUser db.next_user_id p puid uname],
          next_user_id := db.next_user_id + 1}) := by
    rw [SrcStorage.upsert_user, hnone]
    rfl
  rw [hrw]
  have hmsgs : (SrcStorage.delete_user db u.id).messages.filter
      (fun m => m.user_id == db.next_user_id) = [] := by
    apply List.filter_eq_nil_iff.2
    intro m hm
    have hlt := hwf.2.2.2.1 m (List.mem_of_mem_filter hm)
    simp only [beq_iff_eq]
    omega
  have hfus : (SrcStorage.delete_user db u.id).followups.filter
      (fun f => f.user_id == db.next_user_id) = [] := by
    apply List.filter_eq_nil_iff.2
    intro f hf
    have hlt := hwf.2.2.2.2 f (List.mem_of_mem_filter hf)
    simp only [beq_iff_eq]
    omega
  refine ⟨rfl, rfl, rfl, ?_, ?_, ?_⟩
  · show SrcStorage.get_recent_messages _ db.next_user_id 20 = []
    simp only [SrcStorage.get_recent_messages]
    rw [show ({SrcStorage.delete_user db u.id with
          users := (SrcStorage.delete_user db u.id).users ++
            [SrcStorage.defaultUser db.next_user_id p puid uname],
          next_user_id := db.next_user_id + 1} : SrcStorage.DB).messages =
        (SrcStorage.delete_user db u.id).messages from rfl]
    rw [hmsgs]
    rfl
  · show List.filter _ (SrcStorage.delete_user db u.id).followups = []
    exact hfus
  · show ((SrcStorage.delete_user db u.id).followups.filter
        (fun g => decide (g.due_at ≤ now))).filter
        (fun f => f.user_id == db.next_user_id) = []
    apply List.filter_eq_nil_iff.2
    intro f hf
    have hfin : f ∈ (SrcStorage.delete_user db u.id).followups :=
      List.mem_of_mem_filter hf
    have hlt := hwf.2.2.2.2 f (List.mem_of_mem_filter hfin)
    simp only [beq_iff_eq]
    omega

/-- Witness for the C9 theorem on the one-user example store. -/
theorem forget_then_recreate_fresh_witness :
    (SrcStorage.DBWF SrcStorage.exDB ∧ SrcStorage.exUser ∈ SrcStorage.exDB.users) ∧
      ((SrcStorage.upsert_user (SrcStorage.delete_user SrcStorage.exDB
          SrcStorage.exUser.id) "tg" "42" (some "al")).1.daily_msg_count = 0 ∧
        (SrcStorage.upsert_user (SrcStorage.delete_user SrcStorage.exDB
          SrcStorage.exUser.id) "tg" "42" (some "al")).1.consent = false ∧
        (SrcStorage.upsert_user (SrcStorage.delete_user SrcStorage.exDB
          SrcStorage.exUser.id) "tg" "42" (some "al")).1.paused = false ∧
        SrcStorage.get_recent_messages
          (SrcStorage.upsert_user (SrcStorage.delete_user SrcStorage.exDB
            SrcStorage.exUser.id) "tg" "42" (some "al")).2
          (SrcStorage.upsert_user (SrcStorage.delete_user SrcStorage.exDB
            SrcStorage.exUser.id) "tg" "42" (some "al")).1.id 20 = [] ∧
        (SrcStorage.upsert_user (SrcStorage.delete_user SrcStorage.exDB
            SrcStorage.exUser.id) "tg" "42" (some "al")).2.followups.filter
          (fun f => f.user_id ==
            (SrcStorage.upsert_user (SrcStorage.delete_user SrcStorage.exDB
              SrcStorage.exUser.id) "tg" "42" (some "al")).1.id) = [] ∧
        (SrcStorage.due_followups
            (SrcStorage.upsert_user (SrcStorage.delete_user SrcStorage.exDB
              SrcStorage.exUser.id) "tg" "42" (some "al")).2 7).filter
          (fun f => f.user_id ==
            (SrcStorage.upsert_user (SrcStorage.delete_user SrcStorage.exDB
              SrcStorage.exUser.id) "tg" "42" (some "al")).1.id) = []) :=
  ⟨⟨⟨by decide, by decide, by decide, by decide, by decide⟩, by decide⟩,
   forget_then_recreate_fresh SrcStorage.exDB SrcStorage.exUser "tg" "42"
     (some "al") 7 ⟨by decide, by decide, by decide, by decide, by decide⟩
     (by decide) (by decide) (by decide)⟩

/-- Witness for the C10 theorem on a two-user store. -/
theorem upsert_existing_updates_only_username_witness :
    SrcStorage.DBWF
        ⟨[⟨0, "tg", "42", some "al", true, false, none, 3, some "d1"⟩,
          ⟨1, "tg", "43", none, false, true, none, 0, none⟩], [], [], 2, 0⟩ ∧
      SrcStorage.get_user_by_platform_id
        ⟨[⟨0, "tg", "42", some "al", true, false, none, 3, some "d1"⟩,
          ⟨1, "tg", "43", none, false, true, none, 0, none⟩], [], [], 2, 0⟩
        "tg" "42" =
        some ⟨0, "tg", "42", some "al", true, false, none, 3, some "d1"⟩ ∧
      (SrcStorage.upsert_user
        ⟨[⟨0, "tg", "42", some "al", true, false, none, 3, some "d1"⟩,
          ⟨1, "tg", "43", none, false, true, none, 0, none⟩], [], [], 2, 0⟩
        "tg" "42" (some "bo")).1.daily_msg_count = 3 :=
  ⟨⟨by decide, by decide, by decide, by decide, by decide⟩, by decide,
   (upsert_existing_updates_only_username
      ⟨[⟨0, "tg", "42", some "al", true, false, none, 3, some "d1"⟩,
        ⟨1, "tg", "43", none, false, true, none, 0, none⟩], [], [], 2, 0⟩
      "tg" "42" (some "bo")
      ⟨0, "tg", "42", some "al", true, false, none, 3, some "d1"⟩
      ⟨by decide, by decide, by decide, by decide, by decide⟩
      (by decide)).2.2.2.2.1⟩

/-- Witness for the C8 amended theorem at `"Как дела?"` with the default
keyword list and a failed random draw. -/
theorem short_question_participation_witness :
    (¬(pyStrip "Как дела?" = "") ∧
        Policies.pyEndsWith (pyStrip "Как дела?") "?" = true) ∧
      Policies.should_participate_in_group "Как дела?"
        Moderation.group_keywords_list false = true :=
  ⟨⟨by decide, by decide⟩,
   short_question_participation "Как дела?" Moderation.group_keywords_list false
     (by decide) (by decide)⟩

end AutoFriend
